import Mathlib

/-!
# quant_llama: the command-line front-end of the llama quantizer

A shallow embedding of `application/ChatLLAMA/quant_llama.cpp`:

* `NE_FTYPE_MAP`, the `std::map` from type names to `model_ftype` values;
* `try_parse_ftype`, with the `std::stoi` it relies on;
* `main`, as a function from `argv` (and the engine it talks to) to the
  ordered list of effects it performs and its exit status.

Strings are lists of characters.  The enumerators of `model_ftype` are
declared in `models/llama/llama_model.h`; their integer values are a
parameter (`FtypeIds`).
-/

namespace QuantLlama

/-- A `std::string` / C string, as the list of its characters. -/
abbrev Str := List Char

/-! ## Characters that need an escape in the C source -/

/-- The line feed, written `\n` in the C source. -/
def nl : Char := Char.ofNat 10

/-- The double quote. -/
def dq : Char := Char.ofNat 34

/-- The single quote. -/
def sq : Char := Char.ofNat 39

/-! ## `model_ftype` -/

/-- The integer values of the nine `model_ftype` enumerators the table uses.
They are defined by the engine header, which this file does not see. -/
structure FtypeIds where
  MODEL_FTYPE_MOSTLY_Q4_0 : Int
  MODEL_FTYPE_MOSTLY_Q4_1 : Int
  MODEL_FTYPE_MOSTLY_Q5_0 : Int
  MODEL_FTYPE_MOSTLY_Q5_1 : Int
  MODEL_FTYPE_MOSTLY_Q8_0 : Int
  MODEL_FTYPE_MOSTLY_Q4_JBLAS_B32 : Int
  MODEL_FTYPE_MOSTLY_Q4_JBLAS_B128 : Int
  MODEL_FTYPE_MOSTLY_Q4_JBLAS_B1024 : Int
  MODEL_FTYPE_MOSTLY_Q4_JBLAS_BF16_B32 : Int

/-- Smallest value of a 32-bit `int`. -/
def INT_MIN : Int := -2147483648

/-- Largest value of a 32-bit `int`. -/
def INT_MAX : Int := 2147483647

/-! ## `std::map<std::string, model_ftype>` -/

/-- The order `std::less<std::string>` puts on keys: lexicographic on the
character codes, a proper prefix coming first. -/
def strLess : Str → Str → Bool
  | [], [] => false
  | [], _ :: _ => true
  | _ :: _, [] => false
  | a :: as, b :: bs =>
    if a.toNat < b.toNat then true
    else if b.toNat < a.toNat then false
    else strLess as bs

/-- Insertion of one pair into a map kept as a list sorted by key; a key
that is already present keeps its old value, as `std::map::insert` does. -/
def mapInsert (kv : Str × Int) : List (Str × Int) → List (Str × Int)
  | [] => [kv]
  | e :: m =>
    if strLess kv.1 e.1 then kv :: e :: m
    else if strLess e.1 kv.1 then e :: mapInsert kv m
    else e :: m

/-- Construction of a map from an initializer list: the pairs are inserted
in the order they are written. -/
def mapOfList (init : List (Str × Int)) : List (Str × Int) :=
  init.foldl (fun m kv => mapInsert kv m) []

/-- The member function `std::map::find`: the entry with the given key, if any. -/
def mapFind (m : List (Str × Int)) (key : Str) : Option (Str × Int) :=
  m.find? (fun e => e.1 == key)

/-- The table of quantization types, in the iteration order of the map. -/
def NE_FTYPE_MAP (ids : FtypeIds) : List (Str × Int) :=
  mapOfList
    [ ("q4_0".toList, ids.MODEL_FTYPE_MOSTLY_Q4_0),
      ("q4_1".toList, ids.MODEL_FTYPE_MOSTLY_Q4_1),
      ("q5_0".toList, ids.MODEL_FTYPE_MOSTLY_Q5_0),
      ("q5_1".toList, ids.MODEL_FTYPE_MOSTLY_Q5_1),
      ("q8_0".toList, ids.MODEL_FTYPE_MOSTLY_Q8_0),
      ("q4_j_b32".toList, ids.MODEL_FTYPE_MOSTLY_Q4_JBLAS_B32),
      ("q4_j_b128".toList, ids.MODEL_FTYPE_MOSTLY_Q4_JBLAS_B128),
      ("q4_j_b1024".toList, ids.MODEL_FTYPE_MOSTLY_Q4_JBLAS_B1024),
      ("q4_j_bf16_b32".toList, ids.MODEL_FTYPE_MOSTLY_Q4_JBLAS_BF16_B32) ]

/-! ## `std::stoi` -/

/-- The two exceptions `std::stoi` throws. -/
inductive StoiError where
  | invalid_argument
  | out_of_range
  deriving DecidableEq, Repr

/-- The classification `isspace` of the C locale: space, `\t`, `\n`, `\v`, `\f`, `\r`. -/
def isspace (c : Char) : Bool :=
  c.toNat == 32 || (9 ≤ c.toNat && c.toNat ≤ 13)

/-- The classification `isdigit`. -/
def isdigit (c : Char) : Bool :=
  48 ≤ c.toNat && c.toNat ≤ 57

/-- Value of a run of decimal digits, most significant first. -/
def digitsValue (ds : Str) : Nat :=
  ds.foldl (fun acc c => 10 * acc + (c.toNat - 48)) 0

/-- The conversion `std::stoi(str)` (base 10, no position argument): `strtol` skips leading white
space, reads an optional sign and the longest run of digits that follows,
and ignores whatever comes after; no digit at all is `invalid_argument`, a
value that does not fit an `int` is `out_of_range`. -/
def stoi (str : Str) : Except StoiError Int :=
  match str.dropWhile isspace with
  | [] => .error .invalid_argument
  | c :: rest =>
    let body := if c == '-' || c == '+' then rest else c :: rest
    let ds := body.takeWhile isdigit
    if ds.isEmpty then .error .invalid_argument
    else
      let v : Int := if c == '-' then -(digitsValue ds : Int) else (digitsValue ds : Int)
      if INT_MIN ≤ v ∧ v ≤ INT_MAX then .ok v else .error .out_of_range

/-! ## `try_parse_ftype` -/

/-- The function `try_parse_ftype`: `some (ftype, ftype_str_out)` when it
returns `true`, `none` when it returns `false` (the two out-parameters are
then left untouched). -/
def try_parse_ftype (ids : FtypeIds) (ftype_str : Str) : Option (Int × Str) :=
  match mapFind (NE_FTYPE_MAP ids) ftype_str with
  | some it => some (it.2, it.1)
  | none =>
    -- try to parse as an integer
    match stoi ftype_str with
    | .ok ftype_int =>
      match (NE_FTYPE_MAP ids).find? (fun it => it.2 == ftype_int) with
      | some it => some (it.2, it.1)
      | none => none
    | .error _ => none

/-! ## Helpers of `main`: `std::string` members and `printf` conversions -/

/-- The member function `std::string::find_last_of(c)`: the position of the last occurrence
of `c`, `none` for `npos`. -/
def find_last_of : Str → Char → Option Nat
  | [], _ => none
  | x :: xs, c =>
    match find_last_of xs c with
    | some pos => some (pos + 1)
    | none => if x == c then some 0 else none

/-- The member function `std::string::substr(pos, n)`. -/
def substr (s : Str) (pos n : Nat) : Str :=
  (s.drop pos).take n

/-- The character of a decimal digit. -/
def digitChar (d : Nat) : Char := Char.ofNat (48 + d)

/-- Decimal digits of `n` in front of `acc`; `fuel` bounds the number of digits. -/
def natDigitsAux : Nat → Nat → Str → Str
  | 0, _, acc => acc
  | fuel + 1, n, acc =>
    if n / 10 = 0 then digitChar (n % 10) :: acc
    else natDigitsAux fuel (n / 10) (digitChar (n % 10) :: acc)

/-- Decimal digits of a natural number, without leading zeros (`0` is one digit). -/
def natDigits (n : Nat) : Str := natDigitsAux (n + 1) n []

/-- The `printf` conversion `%d` of an `int`. -/
def fmt_d (i : Int) : Str :=
  if i < 0 then '-' :: natDigits i.natAbs else natDigits i.natAbs

/-! ## The engine and the effects of `main` -/

/-- What `main` takes from outside: the enumerator values, the text
`e.what()` of a `std::stoi` exception, the successive readings of
`model_time_us`, and the value `model_model_quantize` returns (non-zero
means failure). -/
structure Env where
  ids : FtypeIds
  what : StoiError → Str
  model_time_us : Nat → Int
  model_model_quantize : Str → Str → Int → Int → Int

/-- One observable effect of `main`. -/
inductive Event where
  /-- An `fprintf(stderr, ...)` with the text it writes. -/
  | stderr (text : Str)
  /-- A `printf` with the text it writes. -/
  | stdout (text : Str)
  /-- A `printf` of `head`, then `us / 1000.0` under `%8.2f`, then `" ms\n"`. -/
  | stdout_ms (head : Str) (us : Int)
  | model_init_backend
  | model_time_us
  | model_model_quantize (fname_inp fname_out : Str) (ftype nthread : Int)
  deriving DecidableEq

/-- The effects of a run, in order, and the value `main` returns. -/
structure Outcome where
  trace : List Event
  status : Int
  deriving DecidableEq

/-- Lines 75 to 79 of `main`: the value of the local `fpath`, which is the
input path up to and including its last `/`, or empty. -/
def fpath (fname_inp : Str) : Str :=
  match find_last_of fname_inp '/' with
  | some pos => substr fname_inp 0 (pos + 1)
  | none => []

/-- Lines 112 to 144 of `main`: the status line, the call of the engine and
the report.  `trace` holds the effects so far. -/
def main_quantize (env : Env) (fname_inp fname_out : Str) (ftype : Int) (ftype_str : Str)
    (nthread : Int) (trace : List Event) : Outcome :=
  let trace := trace ++ [Event.stderr ("main: quantizing ".toList ++ [sq] ++ fname_inp ++ [sq]
    ++ " to ".toList ++ [sq] ++ fname_out ++ [sq] ++ " as ".toList ++ ftype_str)]
  let trace := if nthread > 0
    then trace ++ [Event.stderr (" using ".toList ++ fmt_d nthread ++ " threads".toList)]
    else trace
  let trace := trace ++ [Event.stderr [nl]]
  let t_main_start_us := env.model_time_us 0
  let trace := trace ++ [Event.model_time_us]
  -- load the model
  let t_start_us := env.model_time_us 1
  let trace := trace ++ [Event.model_time_us]
  let trace := trace ++ [Event.model_model_quantize fname_inp fname_out ftype nthread]
  if env.model_model_quantize fname_inp fname_out ftype nthread ≠ 0 then
    { trace := trace ++ [Event.stderr ("main: failed to quantize model from ".toList ++ [sq]
        ++ fname_inp ++ [sq] ++ [nl])],
      status := 1 }
  else
    let t_quantize_us := env.model_time_us 2 - t_start_us
    let trace := trace ++ [Event.model_time_us]
    -- report timing
    let t_main_end_us := env.model_time_us 3
    let trace := trace ++ [Event.model_time_us]
    let trace := trace ++ [Event.stdout [nl]]
    let trace := trace ++ [Event.stdout_ms "main: quantize time = ".toList t_quantize_us]
    let trace := trace ++ [Event.stdout_ms "main:    total time = ".toList
      (t_main_end_us - t_main_start_us)]
    { trace := trace, status := 0 }

/-- Lines 100 to 110 of `main`, followed by the rest: the thread count is
read from `argv[arg_idx]` when there is such an argument.  The result is
`none` when `argv` is read outside its bounds. -/
def main_nthreads (env : Env) (argv : List Str) (arg_idx : Nat) (fname_inp fname_out : Str)
    (ftype : Int) (ftype_str : Str) (trace : List Event) : Option Outcome :=
  -- parse nthreads
  if argv.length > arg_idx then
    match argv[arg_idx]? with
    | none => none
    | some a =>
      match stoi a with
      | .ok nthread => some (main_quantize env fname_inp fname_out ftype ftype_str nthread trace)
      | .error e =>
        some { trace := trace ++ [Event.stderr ("main: invalid nthread ".toList ++ [sq] ++ a
                 ++ [sq] ++ " (".toList ++ env.what e ++ ")".toList ++ [nl])],
               status := 1 }
  else
    some (main_quantize env fname_inp fname_out ftype ftype_str 0 trace)

/-- The function `main`, `argc` being the length of `argv`.  The result is
`none` when `argv` is read outside its bounds. -/
def main (env : Env) (argv : List Str) : Option Outcome :=
  if argv.length < 3 then
    match argv[0]? with
    | none => none
    | some argv0 =>
      some { trace :=
               Event.stderr ("usage: ".toList ++ argv0
                 ++ " model-f32.bin [model-quant.bin] type [nthreads]".toList ++ [nl])
               :: (NE_FTYPE_MAP env.ids).map (fun it =>
                    Event.stderr ("  type = ".toList ++ [dq] ++ it.1 ++ [dq] ++ " or ".toList
                      ++ fmt_d it.2 ++ [nl])),
             status := 1 }
  else
    let trace := [Event.model_init_backend]
    -- parse command line arguments
    match argv[1]? with
    | none => none
    | some fname_inp =>
      let arg_idx := 2
      match argv[arg_idx]? with
      | none => none
      | some a =>
        match try_parse_ftype env.ids a with
        | some (ftype, ftype_str) =>
          -- argv[2] is the ftype
          -- export as [inp path]/ne-model-[ftype].bin
          let fname_out := fpath fname_inp ++ "ne-model-".toList ++ ftype_str ++ ".bin".toList
          let arg_idx := arg_idx + 1
          main_nthreads env argv arg_idx fname_inp fname_out ftype ftype_str trace
        | none =>
          -- argv[2] is the output path
          let fname_out := a
          let arg_idx := arg_idx + 1
          if argv.length ≤ arg_idx then
            some { trace := trace ++ [Event.stderr ("main: missing ftype".toList ++ [nl])],
                   status := 1 }
          else
            -- argv[3] is the ftype
            match argv[arg_idx]? with
            | none => none
            | some b =>
              match try_parse_ftype env.ids b with
              | none =>
                match argv[3]? with
                | none => none
                | some argv3 =>
                  some { trace := trace ++ [Event.stderr ("main: invalid ftype ".toList ++ [sq]
                           ++ argv3 ++ [sq] ++ [nl])],
                         status := 1 }
              | some (ftype, ftype_str) =>
                let arg_idx := arg_idx + 1
                main_nthreads env argv arg_idx fname_inp fname_out ftype ftype_str trace

/-! ## Reading a trace -/

/-- The calls of `model_model_quantize` in a trace, with their arguments. -/
def engineCalls (trace : List Event) : List (Str × Str × Int × Int) :=
  trace.filterMap fun ev =>
    match ev with
    | Event.model_model_quantize i o t n => some (i, o, t, n)
    | _ => none

/-- Everything written to `stderr` in a trace, concatenated. -/
def stderrText (trace : List Event) : Str :=
  (trace.filterMap fun ev =>
    match ev with
    | Event.stderr text => some text
    | _ => none).flatten

/-- Whether an event is a call of `model_model_quantize`. -/
def isEngineCall : Event → Bool
  | Event.model_model_quantize _ _ _ _ => true
  | _ => false

/-- The part of a trace that precedes the first call of `model_model_quantize`. -/
def beforeCall (trace : List Event) : List Event :=
  trace.takeWhile (fun ev => !isEngineCall ev)

/-- An engine stub for concrete runs: enumerator values 2, 3, 8, 9, 7, 10,
11, 12, 13, a clock at 0, and a `model_model_quantize` that returns `ret`. -/
def stubEnv (ret : Int) : Env where
  ids := ⟨2, 3, 8, 9, 7, 10, 11, 12, 13⟩
  what := fun _ => "stoi".toList
  model_time_us := fun _ => 0
  model_model_quantize := fun _ _ _ _ => ret

/-! ## Readings of the specification -/

/-- Spec-side reading of "the longest prefix of the input path ending in a
forward slash, empty if no slash exists": `P` is a prefix of `s`, it is
empty or ends in `/`, and no prefix of `s` that ends in `/` is longer. -/
def IsDirPrefix (P s : Str) : Prop :=
  P <+: s ∧ (P = [] ∨ P.getLast? = some '/') ∧
    ∀ Q : Str, Q <+: s → Q.getLast? = some '/' → Q.length ≤ P.length

/-- Spec-side reading of "the type is resolved": `argv[2]` resolves (the
thread count is then at index 3), or `argv[2]` does not resolve and
`argv[3]` does (the thread count is then at index 4). -/
def TypeResolved (ids : FtypeIds) (argv : List Str) (ft : Int) (T : Str) (idx : Nat) : Prop :=
  (∃ t, argv[2]? = some t ∧ try_parse_ftype ids t = some (ft, T) ∧ idx = 3) ∨
  (∃ a t, argv[2]? = some a ∧ try_parse_ftype ids a = none ∧
    argv[3]? = some t ∧ try_parse_ftype ids t = some (ft, T) ∧ idx = 4)

/-- Spec-side reading of "the thread-count token is absent or parses": no
argument at index `idx` and the count is 0, or `std::stoi` reads `n` from
the argument at index `idx`. -/
def ThreadCount (argv : List Str) (idx : Nat) (n : Int) : Prop :=
  (argv[idx]? = none ∧ n = 0) ∨ (∃ tok, argv[idx]? = some tok ∧ stoi tok = .ok n)

/-- Spec-side reading of "signed decimal integer": the value of a token that
is, in its entirety, an optional sign followed by one or more digits. -/
def wholeDecimal (s : Str) : Option Int :=
  match s with
  | [] => none
  | c :: r =>
    let body := if c == '-' || c == '+' then r else c :: r
    if !body.isEmpty && body.all isdigit then
      some (if c == '-' then -(digitsValue body : Int) else (digitsValue body : Int))
    else none

/-- Spec-side description of what `std::stoi` reads: the token is white
space, then an optional sign, then a non-empty run of digits that is not
followed by a further digit, then anything; the value is that of the digits
with the sign applied. -/
def ReadsAs (tok : Str) (v : Int) : Prop :=
  ∃ ws sg ds tl : Str, tok = ws ++ sg ++ ds ++ tl ∧ (∀ c ∈ ws, isspace c = true) ∧
    (sg = [] ∨ sg = ['+'] ∨ sg = ['-']) ∧ ds ≠ [] ∧ (∀ c ∈ ds, isdigit c = true) ∧
    (∀ c, tl.head? = some c → isdigit c = false) ∧
    v = (if sg = ['-'] then -(digitsValue ds : Int) else (digitsValue ds : Int))

/-- Whether an event writes to `stdout`. -/
def isStdout : Event → Bool
  | Event.stdout _ => true
  | Event.stdout_ms _ _ => true
  | _ => false

/-- Whether an event writes to `stderr`. -/
def isStderr : Event → Bool
  | Event.stderr _ => true
  | _ => false

/-- Whether an event is the call of `model_init_backend`. -/
def isInit : Event → Bool
  | Event.model_init_backend => true
  | _ => false

/-- The part of a trace that follows the first call of `model_model_quantize`
(empty when there is no such call). -/
def afterCall (trace : List Event) : List Event :=
  (trace.dropWhile (fun ev => !isEngineCall ev)).drop 1

/-! # Properties

## The table and the integer conversions -/

theorem NE_FTYPE_MAP_eq (ids : FtypeIds) : NE_FTYPE_MAP ids =
    [ ("q4_0".toList, ids.MODEL_FTYPE_MOSTLY_Q4_0),
      ("q4_1".toList, ids.MODEL_FTYPE_MOSTLY_Q4_1),
      ("q4_j_b1024".toList, ids.MODEL_FTYPE_MOSTLY_Q4_JBLAS_B1024),
      ("q4_j_b128".toList, ids.MODEL_FTYPE_MOSTLY_Q4_JBLAS_B128),
      ("q4_j_b32".toList, ids.MODEL_FTYPE_MOSTLY_Q4_JBLAS_B32),
      ("q4_j_bf16_b32".toList, ids.MODEL_FTYPE_MOSTLY_Q4_JBLAS_BF16_B32),
      ("q5_0".toList, ids.MODEL_FTYPE_MOSTLY_Q5_0),
      ("q5_1".toList, ids.MODEL_FTYPE_MOSTLY_Q5_1),
      ("q8_0".toList, ids.MODEL_FTYPE_MOSTLY_Q8_0) ] := rfl

theorem isspace_not_digit {c : Char} (h : isspace c = true) : isdigit c = false := by
  simp only [isspace, isdigit, Bool.or_eq_true, Bool.and_eq_true, beq_iff_eq, decide_eq_true_eq] at h
  simp only [isdigit, Bool.and_eq_false_iff, decide_eq_false_iff_not]
  omega

theorem isdigit_not_space {c : Char} (h : isdigit c = true) : isspace c = false := by
  cases hs : isspace c
  · rfl
  · rw [isspace_not_digit hs] at h; cases h

theorem isdigit_not_sign {c : Char} (h : isdigit c = true) : (c == '-' || c == '+') = false := by
  simp only [isdigit, Bool.and_eq_true, decide_eq_true_eq] at h
  simp only [Bool.or_eq_false_iff, beq_eq_false_iff_ne, ne_eq]
  constructor <;> rintro rfl <;> revert h <;> decide

theorem isdigit_ne_minus {c : Char} (h : isdigit c = true) : (c == '-') = false := by
  have := isdigit_not_sign h
  simp only [Bool.or_eq_false_iff] at this
  exact this.1

theorem sign_not_space {c : Char} (h : (c == '-' || c == '+') = true) : isspace c = false := by
  simp only [Bool.or_eq_true, beq_iff_eq] at h
  rcases h with rfl | rfl <;> rfl

theorem digitsValue_append_singleton (ds : Str) (c : Char) :
    digitsValue (ds ++ [c]) = 10 * digitsValue ds + (c.toNat - 48) := by
  simp [digitsValue, List.foldl_append]

theorem isdigit_digitChar {d : Nat} (h : d < 10) : isdigit (digitChar d) = true := by
  interval_cases d <;> rfl

theorem digitChar_toNat {d : Nat} (h : d < 10) : (digitChar d).toNat - 48 = d := by
  interval_cases d <;> rfl

theorem natDigitsAux_spec : ∀ (fuel n : Nat) (acc : Str), n < fuel →
    ∃ ds : Str, natDigitsAux fuel n acc = ds ++ acc ∧ ds ≠ [] ∧
      (∀ c ∈ ds, isdigit c = true) ∧ digitsValue ds = n := by
  intro fuel
  induction fuel with
  | zero => intro n acc h; omega
  | succ fuel ih =>
    intro n acc h
    have hd : n % 10 < 10 := Nat.mod_lt _ (by omega)
    by_cases h0 : n / 10 = 0
    · refine ⟨[digitChar (n % 10)], ?_, by simp, ?_, ?_⟩
      · simp [natDigitsAux, h0]
      · intro c hc
        rw [List.mem_singleton] at hc
        rw [hc]; exact isdigit_digitChar hd
      · have := digitsValue_append_singleton [] (digitChar (n % 10))
        simp only [List.nil_append] at this
        rw [this, digitChar_toNat hd]
        simp only [digitsValue, List.foldl_nil]
        omega
    · have hlt : n / 10 < fuel := by omega
      obtain ⟨ds, hds, -, hall, hval⟩ := ih (n / 10) (digitChar (n % 10) :: acc) hlt
      refine ⟨ds ++ [digitChar (n % 10)], ?_, by simp, ?_, ?_⟩
      · simp [natDigitsAux, h0, hds]
      · intro c hc
        rcases List.mem_append.1 hc with hc | hc
        · exact hall c hc
        · rw [List.mem_singleton] at hc
          rw [hc]; exact isdigit_digitChar hd
      · rw [digitsValue_append_singleton, hval, digitChar_toNat hd]
        omega

theorem natDigits_spec (n : Nat) :
    natDigits n ≠ [] ∧ (∀ c ∈ natDigits n, isdigit c = true) ∧ digitsValue (natDigits n) = n := by
  obtain ⟨ds, hds, hne, hall, hval⟩ := natDigitsAux_spec (n + 1) n [] (by omega)
  have : natDigits n = ds := by simp [natDigits, hds]
  rw [this]
  exact ⟨hne, hall, hval⟩

theorem wholeDecimal_fmt_d (i : Int) : wholeDecimal (fmt_d i) = some i := by
  obtain ⟨hne, hall, hval⟩ := natDigits_spec i.natAbs
  have hall' : (natDigits i.natAbs).all isdigit = true := List.all_eq_true.2 hall
  by_cases hi : i < 0
  · have hemp : (natDigits i.natAbs).isEmpty = false := by
      cases h : natDigits i.natAbs with
      | nil => exact absurd h hne
      | cons _ _ => rfl
    have hv : -((i.natAbs : Nat) : Int) = i := by omega
    unfold fmt_d
    rw [if_pos hi]
    simp only [wholeDecimal, beq_self_eq_true, Bool.true_or, if_true, hemp, hall', hval,
      Bool.not_false, Bool.and_self, hv]
  · have hv : ((i.natAbs : Nat) : Int) = i := by omega
    unfold fmt_d
    rw [if_neg hi]
    cases h : natDigits i.natAbs with
    | nil => exact absurd h hne
    | cons c r =>
      have hc : isdigit c = true := hall c (by rw [h]; exact List.mem_cons_self _ _)
      rw [h] at hall' hval
      have hs := isdigit_not_sign hc
      have hm := isdigit_ne_minus hc
      have hp : (c == '+') = false := by
        simp only [Bool.or_eq_false_iff] at hs
        exact hs.2
      simp only [wholeDecimal, hp, hm, hall', List.isEmpty_cons, Bool.not_false, Bool.and_self,
        Bool.or_self, if_true, Bool.false_eq_true, if_false, hval, hv]

theorem wholeDecimal_cons {c : Char} {r : Str} {v : Int} (h : wholeDecimal (c :: r) = some v) :
    (if (c == '-' || c == '+') = true then r else c :: r) ≠ [] ∧
    (∀ x ∈ (if (c == '-' || c == '+') = true then r else c :: r), isdigit x = true) ∧
    v = (if (c == '-') = true
          then -(digitsValue (if (c == '-' || c == '+') = true then r else c :: r) : Int)
          else (digitsValue (if (c == '-' || c == '+') = true then r else c :: r) : Int)) := by
  unfold wholeDecimal at h
  by_cases hb : (!(if (c == '-' || c == '+') = true then r else c :: r).isEmpty
      && (if (c == '-' || c == '+') = true then r else c :: r).all isdigit) = true
  · simp only [hb, if_true, Option.some.injEq] at h
    simp only [Bool.and_eq_true, Bool.not_eq_true', List.all_eq_true, List.isEmpty_eq_false] at hb
    exact ⟨hb.1, hb.2, h.symm⟩
  · simp only [hb, if_false] at h
    cases h

theorem stoi_of_wholeDecimal {s : Str} {v : Int} (h : wholeDecimal s = some v)
    (hr : INT_MIN ≤ v ∧ v ≤ INT_MAX) : stoi s = .ok v := by
  cases s with
  | nil => simp [wholeDecimal] at h
  | cons c r =>
    obtain ⟨hne, hall, hv⟩ := wholeDecimal_cons h
    have hcs : isspace c = false := by
      by_cases hsg : (c == '-' || c == '+') = true
      · exact sign_not_space hsg
      · simp only [hsg] at hall
        exact isdigit_not_space (hall c (List.mem_cons_self _ _))
    have htw : List.takeWhile isdigit (if (c == '-' || c == '+') = true then r else c :: r)
        = (if (c == '-' || c == '+') = true then r else c :: r) :=
      List.takeWhile_eq_self_iff.2 hall
    have hemp : (if (c == '-' || c == '+') = true then r else c :: r).isEmpty = false := by
      cases hb : (if (c == '-' || c == '+') = true then r else c :: r) with
      | nil => exact absurd hb hne
      | cons _ _ => rfl
    simp only [stoi, List.dropWhile_cons, hcs, htw, hemp, ← hv, Bool.false_eq_true, if_false]
    rw [if_pos hr]

theorem mem_NE_FTYPE_MAP {ids : FtypeIds} {e : Str × Int} (he : e ∈ NE_FTYPE_MAP ids) :
    e = ("q4_0".toList, ids.MODEL_FTYPE_MOSTLY_Q4_0) ∨
    e = ("q4_1".toList, ids.MODEL_FTYPE_MOSTLY_Q4_1) ∨
    e = ("q4_j_b1024".toList, ids.MODEL_FTYPE_MOSTLY_Q4_JBLAS_B1024) ∨
    e = ("q4_j_b128".toList, ids.MODEL_FTYPE_MOSTLY_Q4_JBLAS_B128) ∨
    e = ("q4_j_b32".toList, ids.MODEL_FTYPE_MOSTLY_Q4_JBLAS_B32) ∨
    e = ("q4_j_bf16_b32".toList, ids.MODEL_FTYPE_MOSTLY_Q4_JBLAS_BF16_B32) ∨
    e = ("q5_0".toList, ids.MODEL_FTYPE_MOSTLY_Q5_0) ∨
    e = ("q5_1".toList, ids.MODEL_FTYPE_MOSTLY_Q5_1) ∨
    e = ("q8_0".toList, ids.MODEL_FTYPE_MOSTLY_Q8_0) := by
  rw [NE_FTYPE_MAP_eq] at he
  simpa only [List.mem_cons, List.mem_singleton, List.not_mem_nil, or_false] using he

theorem mapFind_of_mem {ids : FtypeIds} {e : Str × Int} (he : e ∈ NE_FTYPE_MAP ids) :
    mapFind (NE_FTYPE_MAP ids) e.1 = some e := by
  rcases mem_NE_FTYPE_MAP he with h | h | h | h | h | h | h | h | h <;> subst h <;> rfl

theorem try_parse_ftype_of_mapFind {ids : FtypeIds} {tok : Str} {it : Str × Int}
    (h : mapFind (NE_FTYPE_MAP ids) tok = some it) :
    try_parse_ftype ids tok = some (it.2, it.1) := by
  simp only [try_parse_ftype, h]

theorem key_head {ids : FtypeIds} {e : Str × Int} (he : e ∈ NE_FTYPE_MAP ids) :
    e.1.head? = some 'q' := by
  rcases mem_NE_FTYPE_MAP he with h | h | h | h | h | h | h | h | h <;> subst h <;> rfl

theorem mapFind_eq_none_of_head {ids : FtypeIds} {s : Str} (h : s.head? ≠ some 'q') :
    mapFind (NE_FTYPE_MAP ids) s = none := by
  unfold mapFind
  rw [List.find?_eq_none]
  intro x hx hxs
  have : x.1 = s := by simpa using hxs
  rw [← this, key_head hx] at h
  exact h rfl

theorem wholeDecimal_head {s : Str} {v : Int} (h : wholeDecimal s = some v) :
    s.head? ≠ some 'q' := by
  cases s with
  | nil => simp
  | cons c r =>
    obtain ⟨-, hall, -⟩ := wholeDecimal_cons h
    intro hq
    have hc : c = 'q' := by simpa using hq
    subst hc
    have : isdigit 'q' = true := hall 'q' (by simp)
    revert this
    decide

theorem try_parse_ftype_numeric {ids : FtypeIds} {s : Str} {v : Int}
    (hnone : mapFind (NE_FTYPE_MAP ids) s = none) (hs : stoi s = .ok v) :
    try_parse_ftype ids s =
      ((NE_FTYPE_MAP ids).find? (fun it => it.2 == v)).map (fun it => (it.2, it.1)) := by
  simp only [try_parse_ftype, hnone, hs]
  cases (NE_FTYPE_MAP ids).find? (fun it => it.2 == v) <;> rfl

theorem find_id_of_nodup : ∀ (l : List (Str × Int)) (e : Str × Int),
    (l.map Prod.snd).Nodup → e ∈ l → l.find? (fun it => it.2 == e.2) = some e := by
  intro l
  induction l with
  | nil => intro e _ he; cases he
  | cons x xs ih =>
    intro e hnd he
    rw [List.map_cons, List.nodup_cons] at hnd
    rcases List.mem_cons.1 he with h | h
    · subst h
      simp
    · have hne : x.2 ≠ e.2 := by
        intro hx
        exact hnd.1 (hx ▸ List.mem_map_of_mem Prod.snd h)
      rw [List.find?_cons_of_neg _ (by simpa using hne)]
      exact ih e hnd.2 h

/-- C3. Every canonical name of the table resolves, through the exact-name
phase, to the identifier the table assigns to it together with the name
itself, whatever the identifiers are; and whenever the exact-name lookup
finds an entry for a token, that entry is the result, whatever `std::stoi`
would make of the token. -/
theorem try_parse_ftype_name_round_trip (ids : FtypeIds) (e : Str × Int)
    (he : e ∈ NE_FTYPE_MAP ids) :
    try_parse_ftype ids e.1 = some (e.2, e.1) ∧
    mapFind (NE_FTYPE_MAP ids) e.1 = some e ∧
    (∀ (tok : Str) (it : Str × Int), mapFind (NE_FTYPE_MAP ids) tok = some it →
      try_parse_ftype ids tok = some (it.2, it.1)) :=
  ⟨try_parse_ftype_of_mapFind (mapFind_of_mem he), mapFind_of_mem he,
    fun _ _ h => try_parse_ftype_of_mapFind h⟩

theorem try_parse_ftype_name_round_trip_witness :
    ("q5_1".toList, (9 : Int)) ∈ NE_FTYPE_MAP (stubEnv 0).ids ∧
    try_parse_ftype (stubEnv 0).ids "q5_1".toList = some (9, "q5_1".toList) :=
  ⟨by decide,
   (try_parse_ftype_name_round_trip (stubEnv 0).ids ("q5_1".toList, 9) (by decide)).1⟩

/-- C4. For every identifier carried by an entry of the table and lying in
the range of a 32-bit `int`, the `%d` rendering of the identifier is not a
canonical name, `std::stoi` reads the identifier back from it, and
`try_parse_ftype` succeeds on it with an entry of the table whose identifier
is that one; the identifiers need not be distinct. -/
theorem try_parse_ftype_id_round_trip (ids : FtypeIds) (e : Str × Int)
    (he : e ∈ NE_FTYPE_MAP ids) (hr : INT_MIN ≤ e.2 ∧ e.2 ≤ INT_MAX) :
    mapFind (NE_FTYPE_MAP ids) (fmt_d e.2) = none ∧
    stoi (fmt_d e.2) = .ok e.2 ∧
    ∃ name : Str, try_parse_ftype ids (fmt_d e.2) = some (e.2, name) ∧
      (name, e.2) ∈ NE_FTYPE_MAP ids := by
  have hnone : mapFind (NE_FTYPE_MAP ids) (fmt_d e.2) = none :=
    mapFind_eq_none_of_head (wholeDecimal_head (wholeDecimal_fmt_d e.2))
  have hs : stoi (fmt_d e.2) = .ok e.2 := stoi_of_wholeDecimal (wholeDecimal_fmt_d e.2) hr
  refine ⟨hnone, hs, ?_⟩
  rw [try_parse_ftype_numeric hnone hs]
  cases hf : (NE_FTYPE_MAP ids).find? (fun it => it.2 == e.2) with
  | none =>
    rw [List.find?_eq_none] at hf
    exact absurd (by simp) (hf e he)
  | some it =>
    have h2 : it.2 = e.2 := by simpa using List.find?_some hf
    refine ⟨it.1, by simp [h2], ?_⟩
    rw [← h2]
    exact List.mem_of_find?_eq_some hf

theorem try_parse_ftype_id_round_trip_witness :
    (("q4_1".toList, (2 : Int)) ∈ NE_FTYPE_MAP ⟨2, 2, 8, 9, 7, 10, 11, 12, 13⟩) ∧
    (INT_MIN ≤ (2 : Int) ∧ (2 : Int) ≤ INT_MAX) ∧
    ∃ name : Str, try_parse_ftype ⟨2, 2, 8, 9, 7, 10, 11, 12, 13⟩ (fmt_d 2) = some (2, name) ∧
      (name, (2 : Int)) ∈ NE_FTYPE_MAP ⟨2, 2, 8, 9, 7, 10, 11, 12, 13⟩ :=
  ⟨by decide, by decide,
   (try_parse_ftype_id_round_trip ⟨2, 2, 8, 9, 7, 10, 11, 12, 13⟩ ("q4_1".toList, 2)
      (by decide) (by decide)).2.2⟩

/-! ## The derived directory prefix -/

theorem find_last_of_none : ∀ (s : Str) (c : Char), find_last_of s c = none → c ∉ s := by
  intro s c
  induction s with
  | nil => intro _; simp
  | cons x xs ih =>
    intro h
    unfold find_last_of at h
    cases hx : find_last_of xs c with
    | some p => rw [hx] at h; cases h
    | none =>
      rw [hx] at h
      by_cases hxc : (x == c) = true
      · simp only [hxc, if_true] at h; cases h
      · have hne : x ≠ c := by simpa using hxc
        intro hmem
        rcases List.mem_cons.1 hmem with h1 | h1
        · exact hne h1.symm
        · exact ih hx h1

theorem find_last_of_some : ∀ (s : Str) (c : Char) (p : Nat), find_last_of s c = some p →
    ∃ pre tl : Str, s = pre ++ c :: tl ∧ pre.length = p ∧ c ∉ tl := by
  intro s c
  induction s with
  | nil => intro p h; cases h
  | cons x xs ih =>
    intro p h
    unfold find_last_of at h
    cases hx : find_last_of xs c with
    | some q =>
      rw [hx] at h
      obtain ⟨pre, tl, hs, hl, hn⟩ := ih q hx
      injection h with h
      exact ⟨x :: pre, tl, by rw [hs]; rfl, by simp [hl, h], hn⟩
    | none =>
      rw [hx] at h
      by_cases hxc : (x == c) = true
      · simp only [hxc, if_true, Option.some.injEq] at h
        have hxc' : x = c := by simpa using hxc
        exact ⟨[], xs, by rw [hxc']; rfl, by simp [h], find_last_of_none xs c hx⟩
      · simp only [hxc, if_false] at h; cases h

theorem fpath_cases (s : Str) :
    (fpath s = [] ∧ '/' ∉ s) ∨
    (∃ pre tl : Str, s = pre ++ '/' :: tl ∧ fpath s = pre ++ ['/'] ∧ '/' ∉ tl) := by
  unfold fpath
  cases h : find_last_of s '/' with
  | none => exact Or.inl ⟨rfl, find_last_of_none s _ h⟩
  | some p =>
    obtain ⟨pre, tl, hs, hl, hn⟩ := find_last_of_some s _ p h
    refine Or.inr ⟨pre, tl, hs, ?_, hn⟩
    have : s = (pre ++ ['/']) ++ tl := by rw [hs]; simp
    simp only [substr, List.drop_zero]
    rw [this, ← hl]
    have hlen : pre.length + 1 = (pre ++ ['/']).length := by simp
    rw [hlen, List.take_left]

theorem fpath_isDirPrefix (s : Str) : IsDirPrefix (fpath s) s := by
  rcases fpath_cases s with ⟨h0, hn⟩ | ⟨pre, tl, hs, hf, hn⟩
  · refine ⟨by rw [h0]; exact List.nil_prefix, Or.inl h0, ?_⟩
    intro Q hQ hlast
    exfalso
    apply hn
    have : '/' ∈ Q := List.mem_of_getLast?_eq_some hlast
    exact hQ.subset this
  · rw [hf]
    subst hs
    have hpre : pre ++ ['/'] <+: pre ++ '/' :: tl := ⟨tl, by simp⟩
    refine ⟨hpre, Or.inr (by simp), ?_⟩
    intro Q hQ hlast
    by_contra hlt
    have hpq : pre ++ ['/'] <+: Q := List.prefix_of_prefix_length_le hpre hQ (by omega)
    obtain ⟨Q', hQ'⟩ := hpq
    have hQne : Q' ≠ [] := by
      intro h
      rw [h, List.append_nil] at hQ'
      rw [← hQ'] at hlt
      omega
    obtain ⟨r, hr⟩ := hQ
    have htl : tl = Q' ++ r := by
      have h1 : (pre ++ ['/']) ++ (Q' ++ r) = (pre ++ ['/']) ++ tl := by
        rw [← List.append_assoc, hQ', hr]; simp
      exact (List.append_cancel_left h1).symm
    have hlast' : Q'.getLast? = some '/' := by
      rw [← hQ', List.getLast?_append_of_ne_nil _ hQne] at hlast
      exact hlast
    apply hn
    rw [htl]
    exact List.mem_append_left _ (List.mem_of_getLast?_eq_some hlast')

theorem isDirPrefix_nil_of_not_mem {P s : Str} (h : IsDirPrefix P s) (hn : '/' ∉ s) : P = [] := by
  rcases h.2.1 with h0 | hl
  · exact h0
  · exact absurd (h.1.subset (List.mem_of_getLast?_eq_some hl)) hn

theorem isDirPrefix_self_of_getLast {P s : Str} (h : IsDirPrefix P s)
    (hl : s.getLast? = some '/') : P = s := by
  have hlen := h.2.2 s (List.prefix_refl s) hl
  exact List.IsPrefix.eq_of_length_le h.1 hlen

/-! ## The branches of `main` -/

theorem main_lt3 (env : Env) (argv : List Str) (hlen : argv.length < 3) (hne : argv ≠ []) :
    ∃ argv0, argv[0]? = some argv0 ∧
      main env argv = some
        { trace :=
            Event.stderr ("usage: ".toList ++ argv0
              ++ " model-f32.bin [model-quant.bin] type [nthreads]".toList ++ [nl])
            :: (NE_FTYPE_MAP env.ids).map (fun it =>
                 Event.stderr ("  type = ".toList ++ [dq] ++ it.1 ++ [dq] ++ " or ".toList
                   ++ fmt_d it.2 ++ [nl])),
          status := 1 } := by
  cases argv with
  | nil => exact absurd rfl hne
  | cons a0 rest =>
    have h0 : (a0 :: rest)[0]? = some a0 := by simp
    refine ⟨a0, h0, ?_⟩
    unfold main
    rw [if_pos hlen]
    simp only [h0]

theorem length_of_getElem? {argv : List Str} {k : Nat} {a : Str} (h : argv[k]? = some a) :
    k < argv.length := by
  by_contra hk
  rw [List.getElem?_eq_none (by omega)] at h
  cases h

theorem getElem?_one_of_two {argv : List Str} {a : Str} (h : argv[2]? = some a) :
    ∃ inp, argv[1]? = some inp := by
  have := length_of_getElem? h
  exact ⟨argv[1], List.getElem?_eq_getElem (by omega)⟩

theorem main_missing (env : Env) (argv : List Str) (a : Str)
    (h2 : argv[2]? = some a) (ha : try_parse_ftype env.ids a = none) (h3 : argv[3]? = none) :
    main env argv = some
      { trace := [Event.model_init_backend, Event.stderr ("main: missing ftype".toList ++ [nl])],
        status := 1 } := by
  obtain ⟨inp, h1⟩ := getElem?_one_of_two h2
  have hlen := length_of_getElem? h2
  have hlen3 : argv.length ≤ 3 := by
    by_contra hk
    rw [List.getElem?_eq_getElem (by omega)] at h3
    cases h3
  unfold main
  rw [if_neg (by omega)]
  simp only [h1, h2, ha]
  rw [if_pos (by omega)]
  rfl

theorem main_invalid (env : Env) (argv : List Str) (a b : Str)
    (h2 : argv[2]? = some a) (ha : try_parse_ftype env.ids a = none)
    (h3 : argv[3]? = some b) (hb : try_parse_ftype env.ids b = none) :
    main env argv = some
      { trace := [Event.model_init_backend,
                  Event.stderr ("main: invalid ftype ".toList ++ [sq] ++ b ++ [sq] ++ [nl])],
        status := 1 } := by
  obtain ⟨inp, h1⟩ := getElem?_one_of_two h2
  have hlen := length_of_getElem? h3
  unfold main
  rw [if_neg (by omega)]
  simp only [h1, h2, ha]
  rw [if_neg (by omega)]
  simp only [h3, hb]
  rfl

theorem main_derived (env : Env) (argv : List Str) (inp t : Str) (ft : Int) (T : Str)
    (h1 : argv[1]? = some inp) (h2 : argv[2]? = some t)
    (hT : try_parse_ftype env.ids t = some (ft, T)) :
    main env argv = main_nthreads env argv 3 inp
      (fpath inp ++ "ne-model-".toList ++ T ++ ".bin".toList) ft T [Event.model_init_backend] := by
  have hlen := length_of_getElem? h2
  unfold main
  rw [if_neg (by omega)]
  simp only [h1, h2, hT]

theorem main_explicit (env : Env) (argv : List Str) (inp out t : Str) (ft : Int) (T : Str)
    (h1 : argv[1]? = some inp) (h2 : argv[2]? = some out)
    (hout : try_parse_ftype env.ids out = none)
    (h3 : argv[3]? = some t) (hT : try_parse_ftype env.ids t = some (ft, T)) :
    main env argv = main_nthreads env argv 4 inp out ft T [Event.model_init_backend] := by
  have hlen := length_of_getElem? h3
  unfold main
  rw [if_neg (by omega)]
  simp only [h1, h2, hout]
  rw [if_neg (by omega)]
  simp only [h3, hT]

theorem main_nthreads_none (env : Env) (argv : List Str) (idx : Nat) (inp out : Str) (ft : Int)
    (T : Str) (tr : List Event) (h : argv[idx]? = none) :
    main_nthreads env argv idx inp out ft T tr = some (main_quantize env inp out ft T 0 tr) := by
  have hlen : ¬ argv.length > idx := by
    intro hk
    rw [List.getElem?_eq_getElem hk] at h
    cases h
  unfold main_nthreads
  rw [if_neg hlen]

theorem main_nthreads_ok (env : Env) (argv : List Str) (idx : Nat) (inp out : Str) (ft : Int)
    (T : Str) (tr : List Event) (tok : Str) (n : Int)
    (h : argv[idx]? = some tok) (hn : stoi tok = .ok n) :
    main_nthreads env argv idx inp out ft T tr = some (main_quantize env inp out ft T n tr) := by
  have hlen : argv.length > idx := length_of_getElem? h
  unfold main_nthreads
  rw [if_pos hlen]
  simp only [h, hn]

theorem main_nthreads_error (env : Env) (argv : List Str) (idx : Nat) (inp out : Str) (ft : Int)
    (T : Str) (tr : List Event) (tok : Str) (e : StoiError)
    (h : argv[idx]? = some tok) (hn : stoi tok = .error e) :
    main_nthreads env argv idx inp out ft T tr = some
      { trace := tr ++ [Event.stderr ("main: invalid nthread ".toList ++ [sq] ++ tok
                 ++ [sq] ++ " (".toList ++ env.what e ++ ")".toList ++ [nl])],
        status := 1 } := by
  have hlen : argv.length > idx := length_of_getElem? h
  unfold main_nthreads
  rw [if_pos hlen]
  simp only [h, hn]

theorem main_nthreads_of_threadCount (env : Env) (argv : List Str) (idx : Nat) (inp out : Str)
    (ft : Int) (T : Str) (tr : List Event) (n : Int) (h : ThreadCount argv idx n) :
    main_nthreads env argv idx inp out ft T tr = some (main_quantize env inp out ft T n tr) := by
  rcases h with ⟨h0, hn⟩ | ⟨tok, htok, hn⟩
  · rw [hn]; exact main_nthreads_none env argv idx inp out ft T tr h0
  · exact main_nthreads_ok env argv idx inp out ft T tr tok n htok hn

/-! ## The status line, the engine call and the report -/

theorem main_quantize_status (env : Env) (inp out : Str) (ft : Int) (T : Str) (n : Int)
    (tr : List Event) :
    (main_quantize env inp out ft T n tr).status =
      if env.model_model_quantize inp out ft n = 0 then 0 else 1 := by
  unfold main_quantize
  by_cases h : env.model_model_quantize inp out ft n = 0
  · simp [h]
  · simp [h]

theorem engineCalls_append (a b : List Event) :
    engineCalls (a ++ b) = engineCalls a ++ engineCalls b := by
  simp [engineCalls, List.filterMap_append]

theorem main_quantize_calls (env : Env) (inp out : Str) (ft : Int) (T : Str) (n : Int)
    (tr : List Event) :
    engineCalls (main_quantize env inp out ft T n tr).trace
      = engineCalls tr ++ [(inp, out, ft, n)] := by
  unfold main_quantize
  by_cases h : env.model_model_quantize inp out ft n = 0 <;> by_cases hn : n > 0 <;>
    simp [h, hn, engineCalls, List.filterMap_append]

theorem main_quantize_before (env : Env) (inp out : Str) (ft : Int) (T : Str) (n : Int) :
    stderrText (beforeCall (main_quantize env inp out ft T n [Event.model_init_backend]).trace)
      = "main: quantizing ".toList ++ [sq] ++ inp ++ [sq] ++ " to ".toList ++ [sq] ++ out ++ [sq]
          ++ " as ".toList ++ T
          ++ (if n > 0 then " using ".toList ++ fmt_d n ++ " threads".toList else [])
          ++ [nl] := by
  unfold main_quantize
  by_cases h : env.model_model_quantize inp out ft n = 0 <;> by_cases hn : n > 0 <;>
    simp [h, hn, stderrText, beforeCall, isEngineCall, List.takeWhile]

/-! ## Output path and engine call -/

/-- C1. When `argv[2]` resolves as a type with canonical name `T` and the
thread-count token, if any, parses, `main` calls `model_model_quantize`
exactly once, with input `argv[1]` and with the output path
`P ++ "ne-model-" ++ T ++ ".bin"`, where `P` is the longest prefix of
`argv[1]` ending in `/`: `P` is empty when `argv[1]` has no `/`, and `P` is
the whole of `argv[1]` when `argv[1]` ends in `/`. -/
theorem derived_output_path (env : Env) (argv : List Str) (inp t : Str) (ft : Int) (T : Str)
    (n : Int) (h1 : argv[1]? = some inp) (h2 : argv[2]? = some t)
    (hT : try_parse_ftype env.ids t = some (ft, T)) (hn : ThreadCount argv 3 n) :
    ∃ (P : Str) (o : Outcome),
      IsDirPrefix P inp ∧ ('/' ∉ inp → P = []) ∧ (inp.getLast? = some '/' → P = inp) ∧
      main env argv = some o ∧
      engineCalls o.trace = [(inp, P ++ "ne-model-".toList ++ T ++ ".bin".toList, ft, n)] := by
  refine ⟨fpath inp, main_quantize env inp
    (fpath inp ++ "ne-model-".toList ++ T ++ ".bin".toList) ft T n [Event.model_init_backend],
    fpath_isDirPrefix inp, isDirPrefix_nil_of_not_mem (fpath_isDirPrefix inp),
    isDirPrefix_self_of_getLast (fpath_isDirPrefix inp), ?_, ?_⟩
  · rw [main_derived env argv inp t ft T h1 h2 hT]
    exact main_nthreads_of_threadCount env argv 3 inp _ ft T _ n hn
  · rw [main_quantize_calls]
    rfl

theorem derived_output_path_witness :
    (∃ (P : Str) (o : Outcome),
      IsDirPrefix P "models/llama/ne-model.bin".toList ∧
      ('/' ∉ "models/llama/ne-model.bin".toList → P = []) ∧
      ("models/llama/ne-model.bin".toList.getLast? = some '/' →
        P = "models/llama/ne-model.bin".toList) ∧
      main (stubEnv 0)
        ["quantize".toList, "models/llama/ne-model.bin".toList, "q4_0".toList] = some o ∧
      engineCalls o.trace = [("models/llama/ne-model.bin".toList,
        P ++ "ne-model-".toList ++ "q4_0".toList ++ ".bin".toList, 2, 0)]) ∧
    (main (stubEnv 0)
        ["quantize".toList, "models/llama/ne-model.bin".toList, "q4_0".toList]).map
      (fun o => engineCalls o.trace)
      = some [("models/llama/ne-model.bin".toList, "models/llama/ne-model-q4_0.bin".toList, 2, 0)] ∧
    (main (stubEnv 0) ["quantize".toList, "model.bin".toList, "q8_0".toList]).map
      (fun o => engineCalls o.trace)
      = some [("model.bin".toList, "ne-model-q8_0.bin".toList, 7, 0)] ∧
    (main (stubEnv 0) ["quantize".toList, "models/".toList, "q8_0".toList]).map
      (fun o => engineCalls o.trace)
      = some [("models/".toList, "models/ne-model-q8_0.bin".toList, 7, 0)] :=
  ⟨derived_output_path (stubEnv 0)
      ["quantize".toList, "models/llama/ne-model.bin".toList, "q4_0".toList]
      "models/llama/ne-model.bin".toList "q4_0".toList 2 "q4_0".toList 0 rfl rfl rfl
      (Or.inl ⟨rfl, rfl⟩),
   rfl, rfl, rfl⟩

/-- C2. When `argv[2]` does not resolve as a type and `argv[3]` does,
`main` calls `model_model_quantize` exactly once, with input `argv[1]`,
output `argv[2]` unchanged, the identifier resolved from `argv[3]`, and
the thread count `std::stoi` reads from `argv[4]`, or 0 when there is no
`argv[4]`. -/
theorem explicit_output_form (env : Env) (argv : List Str) (inp out t : Str) (ft : Int)
    (T : Str) (n : Int) (h1 : argv[1]? = some inp) (h2 : argv[2]? = some out)
    (h3 : argv[3]? = some t) (hout : try_parse_ftype env.ids out = none)
    (hT : try_parse_ftype env.ids t = some (ft, T)) (hn : ThreadCount argv 4 n) :
    ∃ o : Outcome, main env argv = some o ∧ engineCalls o.trace = [(inp, out, ft, n)] := by
  refine ⟨main_quantize env inp out ft T n [Event.model_init_backend], ?_, ?_⟩
  · rw [main_explicit env argv inp out t ft T h1 h2 hout h3 hT]
    exact main_nthreads_of_threadCount env argv 4 inp out ft T _ n hn
  · rw [main_quantize_calls]
    rfl

theorem explicit_output_form_witness :
    ∃ o : Outcome,
      main (stubEnv 0) ["quantize".toList, "in.bin".toList, "out.bin".toList, "q5_1".toList,
        "8".toList] = some o ∧
      engineCalls o.trace = [("in.bin".toList, "out.bin".toList, 9, 8)] :=
  explicit_output_form (stubEnv 0)
    ["quantize".toList, "in.bin".toList, "out.bin".toList, "q5_1".toList, "8".toList]
    "in.bin".toList "out.bin".toList "q5_1".toList 9 "q5_1".toList 8 rfl rfl rfl rfl rfl
    (Or.inr ⟨"8".toList, rfl, rfl⟩)

/-- C5. When the identifiers of the table are pairwise distinct (and are
`int` values), the `%d` rendering of the identifier of `q4_1` is not a
canonical name and resolves through the numeric phase to `q4_1`; on
`argv = [quantize, in.bin, d]` the engine is called with the identifier of
`q4_1`, the output path `ne-model-q4_1.bin` and thread count 0, after the
status line naming `q4_1` has been written.  More generally the rendering
of the identifier of any entry resolves to exactly that entry. -/
theorem numeric_type_scenario (env : Env)
    (hd : ((NE_FTYPE_MAP env.ids).map Prod.snd).Nodup)
    (hr : ∀ e ∈ NE_FTYPE_MAP env.ids, INT_MIN ≤ e.2 ∧ e.2 ≤ INT_MAX) :
    (mapFind (NE_FTYPE_MAP env.ids) (fmt_d env.ids.MODEL_FTYPE_MOSTLY_Q4_1) = none ∧
      stoi (fmt_d env.ids.MODEL_FTYPE_MOSTLY_Q4_1) = .ok env.ids.MODEL_FTYPE_MOSTLY_Q4_1 ∧
      try_parse_ftype env.ids (fmt_d env.ids.MODEL_FTYPE_MOSTLY_Q4_1)
        = some (env.ids.MODEL_FTYPE_MOSTLY_Q4_1, "q4_1".toList)) ∧
    (∃ o : Outcome,
      main env ["quantize".toList, "in.bin".toList, fmt_d env.ids.MODEL_FTYPE_MOSTLY_Q4_1]
        = some o ∧
      engineCalls o.trace = [("in.bin".toList, "ne-model-q4_1.bin".toList,
        env.ids.MODEL_FTYPE_MOSTLY_Q4_1, 0)] ∧
      stderrText (beforeCall o.trace) = "main: quantizing ".toList ++ [sq] ++ "in.bin".toList
        ++ [sq] ++ " to ".toList ++ [sq] ++ "ne-model-q4_1.bin".toList ++ [sq]
        ++ " as q4_1".toList ++ [nl]) ∧
    (∀ e ∈ NE_FTYPE_MAP env.ids, try_parse_ftype env.ids (fmt_d e.2) = some (e.2, e.1)) := by
  have hgen : ∀ e ∈ NE_FTYPE_MAP env.ids,
      try_parse_ftype env.ids (fmt_d e.2) = some (e.2, e.1) := by
    intro e he
    have hnone : mapFind (NE_FTYPE_MAP env.ids) (fmt_d e.2) = none :=
      mapFind_eq_none_of_head (wholeDecimal_head (wholeDecimal_fmt_d e.2))
    have hs : stoi (fmt_d e.2) = .ok e.2 :=
      stoi_of_wholeDecimal (wholeDecimal_fmt_d e.2) (hr e he)
    rw [try_parse_ftype_numeric hnone hs, find_id_of_nodup _ e hd he]
    rfl
  have hmem : ("q4_1".toList, env.ids.MODEL_FTYPE_MOSTLY_Q4_1) ∈ NE_FTYPE_MAP env.ids := by
    rw [NE_FTYPE_MAP_eq]
    simp
  have hq := hgen _ hmem
  refine ⟨⟨mapFind_eq_none_of_head (wholeDecimal_head (wholeDecimal_fmt_d _)),
    stoi_of_wholeDecimal (wholeDecimal_fmt_d _) (hr _ hmem), hq⟩, ?_, hgen⟩
  refine ⟨main_quantize env "in.bin".toList "ne-model-q4_1.bin".toList
    env.ids.MODEL_FTYPE_MOSTLY_Q4_1 "q4_1".toList 0 [Event.model_init_backend], ?_, ?_, ?_⟩
  · rw [main_derived env _ "in.bin".toList _ _ "q4_1".toList rfl rfl hq]
    exact main_nthreads_of_threadCount env _ 3 _ _ _ _ _ 0 (Or.inl ⟨rfl, rfl⟩)
  · rw [main_quantize_calls]
    rfl
  · rw [main_quantize_before]
    rfl

theorem numeric_type_scenario_witness :
    ((NE_FTYPE_MAP (stubEnv 0).ids).map Prod.snd).Nodup ∧
    (∀ e ∈ NE_FTYPE_MAP (stubEnv 0).ids, INT_MIN ≤ e.2 ∧ e.2 ≤ INT_MAX) ∧
    try_parse_ftype (stubEnv 0).ids (fmt_d 3) = some (3, "q4_1".toList) ∧
    ∃ o : Outcome,
      main (stubEnv 0) ["quantize".toList, "in.bin".toList, fmt_d 3] = some o ∧
      engineCalls o.trace = [("in.bin".toList, "ne-model-q4_1.bin".toList, 3, 0)] ∧
      stderrText (beforeCall o.trace) = "main: quantizing ".toList ++ [sq] ++ "in.bin".toList
        ++ [sq] ++ " to ".toList ++ [sq] ++ "ne-model-q4_1.bin".toList ++ [sq]
        ++ " as q4_1".toList ++ [nl] :=
  ⟨by decide, by decide,
   (numeric_type_scenario (stubEnv 0) (by decide) (by decide)).1.2.2,
   (numeric_type_scenario (stubEnv 0) (by decide) (by decide)).2.1⟩

/-! ## What `std::stoi` accepts -/

theorem dropWhile_head_false {p : Char → Bool} : ∀ (l : Str) (c : Char) (r : Str),
    l.dropWhile p = c :: r → p c = false := by
  intro l
  induction l with
  | nil => intro c r h; cases h
  | cons x xs ih =>
    intro c r h
    by_cases hx : p x = true
    · rw [List.dropWhile_cons_of_pos hx] at h
      exact ih c r h
    · rw [List.dropWhile_cons_of_neg hx] at h
      injection h with h1 _
      rw [← h1]
      simpa using hx

theorem takeWhile_nil_of_head {p : Char → Bool} (tl : Str)
    (h : ∀ c, tl.head? = some c → p c = false) : tl.takeWhile p = [] := by
  cases tl with
  | nil => rfl
  | cons x xs =>
    have hx : p x = false := h x rfl
    rw [List.takeWhile_cons_of_neg (by simp [hx])]

theorem takeWhile_digits_append (ds tl : Str) (hall : ∀ c ∈ ds, isdigit c = true)
    (htl : ∀ c, tl.head? = some c → isdigit c = false) :
    (ds ++ tl).takeWhile isdigit = ds := by
  rw [List.takeWhile_append_of_pos hall, takeWhile_nil_of_head tl htl, List.append_nil]

theorem stoi_cons_eval (c : Char) (r body ds : Str) (v : Int) (hc : isspace c = false)
    (hbody : (if (c == '-' || c == '+') = true then r else c :: r) = body)
    (hds : body.takeWhile isdigit = ds) (hne : ds.isEmpty = false)
    (hv : (if (c == '-') = true then -(digitsValue ds : Int) else (digitsValue ds : Int)) = v)
    (hr : INT_MIN ≤ v ∧ v ≤ INT_MAX) : stoi (c :: r) = .ok v := by
  subst hbody
  subst hds
  subst hv
  simp only [stoi, List.dropWhile_cons, hc, Bool.false_eq_true, if_false, hne]
  rw [if_pos hr]

theorem stoi_skip_space (ws s : Str) (h : ∀ c ∈ ws, isspace c = true) :
    stoi (ws ++ s) = stoi s := by
  unfold stoi
  rw [List.dropWhile_append_of_pos h]

theorem stoi_of_readsAs {tok : Str} {v : Int} (h : ReadsAs tok v)
    (hr : INT_MIN ≤ v ∧ v ≤ INT_MAX) : stoi tok = .ok v := by
  obtain ⟨ws, sg, ds, tl, htok, hws, hsg, hne, hall, htl, hv⟩ := h
  have htw := takeWhile_digits_append ds tl hall htl
  have hemp : ds.isEmpty = false := by
    cases ds with
    | nil => exact absurd rfl hne
    | cons _ _ => rfl
  rw [htok, List.append_assoc, List.append_assoc, stoi_skip_space _ _ hws]
  rcases hsg with h0 | hp | hm
  · subst h0
    cases ds with
    | nil => exact absurd rfl hne
    | cons d ds' =>
      have hd : isdigit d = true := hall d (List.mem_cons_self _ _)
      have hv' : v = (digitsValue (d :: ds') : Int) := by simpa using hv
      exact stoi_cons_eval d (ds' ++ tl) (d :: (ds' ++ tl)) (d :: ds') v (isdigit_not_space hd)
        (by rw [isdigit_not_sign hd]; rfl) htw hemp
        (by rw [isdigit_ne_minus hd]; exact hv'.symm) hr
  · subst hp
    have hv' : v = (digitsValue ds : Int) := by simpa using hv
    exact stoi_cons_eval '+' (ds ++ tl) (ds ++ tl) ds v (by decide) rfl htw hemp hv'.symm hr
  · subst hm
    have hv' : v = -(digitsValue ds : Int) := by simpa using hv
    exact stoi_cons_eval '-' (ds ++ tl) (ds ++ tl) ds v (by decide) rfl htw hemp hv'.symm hr

theorem stoi_inv {tok : Str} {v : Int} (h : stoi tok = .ok v) :
    ∃ (c : Char) (r : Str), tok.dropWhile isspace = c :: r ∧
      ((if (c == '-' || c == '+') = true then r else c :: r).takeWhile isdigit) ≠ [] ∧
      v = (if (c == '-') = true
            then -(digitsValue ((if (c == '-' || c == '+') = true then r else c :: r).takeWhile
                    isdigit) : Int)
            else (digitsValue ((if (c == '-' || c == '+') = true then r else c :: r).takeWhile
                    isdigit) : Int)) ∧
      INT_MIN ≤ v ∧ v ≤ INT_MAX := by
  unfold stoi at h
  cases hd : tok.dropWhile isspace with
  | nil => rw [hd] at h; cases h
  | cons c r =>
    rw [hd] at h
    simp only at h
    by_cases hemp : ((if (c == '-' || c == '+') = true then r else c :: r).takeWhile
        isdigit).isEmpty = true
    · rw [if_pos hemp] at h; cases h
    · rw [if_neg hemp] at h
      by_cases hr : INT_MIN ≤ (if (c == '-') = true
            then -(digitsValue ((if (c == '-' || c == '+') = true then r else c :: r).takeWhile
                    isdigit) : Int)
            else (digitsValue ((if (c == '-' || c == '+') = true then r else c :: r).takeWhile
                    isdigit) : Int)) ∧
          (if (c == '-') = true
            then -(digitsValue ((if (c == '-' || c == '+') = true then r else c :: r).takeWhile
                    isdigit) : Int)
            else (digitsValue ((if (c == '-' || c == '+') = true then r else c :: r).takeWhile
                    isdigit) : Int)) ≤ INT_MAX
      · rw [if_pos hr] at h
        injection h with h
        refine ⟨c, r, rfl, ?_, h.symm, ?_⟩
        · intro h0
          rw [h0] at hemp
          exact hemp rfl
        · rw [← h]; exact hr
      · rw [if_neg hr] at h; cases h

theorem readsAs_of_stoi {tok : Str} {v : Int} (h : stoi tok = .ok v) :
    ReadsAs tok v ∧ INT_MIN ≤ v ∧ v ≤ INT_MAX := by
  obtain ⟨c, r, hd, hne, hv, hr⟩ := stoi_inv h
  refine ⟨?_, hr⟩
  have hc : isspace c = false := dropWhile_head_false _ c r hd
  have htok : tok = tok.takeWhile isspace ++ c :: r := by
    rw [← hd, List.takeWhile_append_dropWhile]
  have hws : ∀ x ∈ tok.takeWhile isspace, isspace x = true :=
    fun x hx => (List.mem_takeWhile_imp hx)
  have hdigs : ∀ (b : Str), ∀ x ∈ b.takeWhile isdigit, isdigit x = true :=
    fun b x hx => (List.mem_takeWhile_imp hx)
  have htail : ∀ (b : Str) (x : Char), (b.dropWhile isdigit).head? = some x →
      isdigit x = false := by
    intro b x hx
    cases hb : b.dropWhile isdigit with
    | nil => rw [hb] at hx; cases hx
    | cons y ys =>
      rw [hb] at hx
      injection hx with hx
      rw [← hx]
      exact dropWhile_head_false b y ys hb
  by_cases hsgn : (c == '-' || c == '+') = true
  · simp only [hsgn, if_true] at hne hv
    refine ⟨tok.takeWhile isspace, [c], r.takeWhile isdigit, r.dropWhile isdigit, ?_, hws, ?_,
      hne, hdigs r, htail r, ?_⟩
    · rw [List.append_assoc, List.append_assoc, List.takeWhile_append_dropWhile]
      exact htok
    · simp only [Bool.or_eq_true, beq_iff_eq] at hsgn
      rcases hsgn with h1 | h1
      · right; right; rw [h1]
      · right; left; rw [h1]
    · by_cases hm : (c == '-') = true
      · have hc' : c = '-' := by simpa using hm
        rw [hv, hc']
        simp
      · have hc' : c ≠ '-' := by simpa using hm
        have hne' : ¬ ([c] = ['-']) := by simpa using hc'
        rw [hv, if_neg hm, if_neg hne']
  · have hsgn' : (c == '-' || c == '+') = false := by simpa using hsgn
    have hm : (c == '-') = false := by
      simp only [Bool.or_eq_false_iff] at hsgn'
      exact hsgn'.1
    have hmn : ¬ (c == '-') = true := by simp [hm]
    rw [if_neg hsgn] at hne hv
    rw [if_neg hmn] at hv
    refine ⟨tok.takeWhile isspace, [], (c :: r).takeWhile isdigit, (c :: r).dropWhile isdigit,
      ?_, hws, Or.inl rfl, hne, hdigs _, htail _, ?_⟩
    · rw [List.append_nil, List.append_assoc, List.takeWhile_append_dropWhile]
      exact htok
    · rw [hv]
      simp

theorem stoi_ok_iff (tok : Str) (v : Int) :
    stoi tok = .ok v ↔ ReadsAs tok v ∧ INT_MIN ≤ v ∧ v ≤ INT_MAX :=
  ⟨readsAs_of_stoi, fun h => stoi_of_readsAs h.1 h.2⟩

/-! ## Rejection of a type token -/

theorem mapFind_eq_none_iff (m : List (Str × Int)) (tok : Str) :
    mapFind m tok = none ↔ ∀ e ∈ m, e.1 ≠ tok := by
  unfold mapFind
  rw [List.find?_eq_none]
  constructor
  · intro h e he heq
    exact h e he (by simp [heq])
  · intro h e he heq
    exact h e he (by simpa using heq)

theorem try_parse_ftype_eq_none_iff (ids : FtypeIds) (tok : Str) :
    try_parse_ftype ids tok = none ↔
      mapFind (NE_FTYPE_MAP ids) tok = none ∧
      ∀ v, stoi tok = .ok v → ∀ e ∈ NE_FTYPE_MAP ids, e.2 ≠ v := by
  cases hm : mapFind (NE_FTYPE_MAP ids) tok with
  | some it => simp [try_parse_ftype, hm]
  | none =>
    cases hs : stoi tok with
    | error e => simp [try_parse_ftype, hm, hs]
    | ok v =>
      rw [try_parse_ftype_numeric hm hs]
      cases hf : (NE_FTYPE_MAP ids).find? (fun it => it.2 == v) with
      | none =>
        simp only [Option.map_none', true_and, Except.ok.injEq, true_iff]
        intro w hw e he
        rw [← hw]
        rw [List.find?_eq_none] at hf
        simpa using hf e he
      | some it =>
        simp only [Option.map_some', true_and, Except.ok.injEq, false_iff, reduceCtorEq]
        intro h
        have h2 : it.2 = v := by simpa using List.find?_some hf
        exact h v rfl it (List.mem_of_find?_eq_some hf) h2

/-- C6, as amended. `try_parse_ftype` reports not-found exactly when the
token is not a canonical name and there is no reading of the token in the
manner of `std::stoi` (white space, an optional sign, the longest run of
digits, the rest of the token ignored) whose value fits an `int` and equals
the identifier of some entry of the table. -/
theorem type_rejection (ids : FtypeIds) (tok : Str) :
    try_parse_ftype ids tok = none ↔
      (∀ e ∈ NE_FTYPE_MAP ids, e.1 ≠ tok) ∧
      ¬ ∃ v : Int, ReadsAs tok v ∧ INT_MIN ≤ v ∧ v ≤ INT_MAX ∧
          ∃ e ∈ NE_FTYPE_MAP ids, e.2 = v := by
  rw [try_parse_ftype_eq_none_iff, mapFind_eq_none_iff]
  constructor
  · rintro ⟨h1, h2⟩
    refine ⟨h1, ?_⟩
    rintro ⟨v, hread, hlo, hhi, e, he, hev⟩
    exact h2 v (stoi_of_readsAs hread ⟨hlo, hhi⟩) e he hev
  · rintro ⟨h1, h2⟩
    refine ⟨h1, ?_⟩
    intro v hv e he hev
    obtain ⟨hread, hlo, hhi⟩ := readsAs_of_stoi hv
    exact h2 ⟨v, hread, hlo, hhi, e, he, hev⟩

/-- C6, as stated, fails: with the identifier 2 for `q4_0`, the tokens
`2abc` and ` 2` are neither canonical names nor, in their entirety, signed
decimal integers, and `try_parse_ftype` accepts both as `q4_0`. -/
theorem type_rejection_counterexample :
    (∀ e ∈ NE_FTYPE_MAP (stubEnv 0).ids, e.1 ≠ "2abc".toList) ∧
    wholeDecimal "2abc".toList = none ∧
    try_parse_ftype (stubEnv 0).ids "2abc".toList = some (2, "q4_0".toList) ∧
    (∀ e ∈ NE_FTYPE_MAP (stubEnv 0).ids, e.1 ≠ " 2".toList) ∧
    wholeDecimal " 2".toList = none ∧
    try_parse_ftype (stubEnv 0).ids " 2".toList = some (2, "q4_0".toList) ∧
    ¬ (try_parse_ftype (stubEnv 0).ids "2abc".toList = none ↔
        ((∀ e ∈ NE_FTYPE_MAP (stubEnv 0).ids, e.1 ≠ "2abc".toList) ∧
          ¬ ∃ v : Int, wholeDecimal "2abc".toList = some v ∧
              ∃ e ∈ NE_FTYPE_MAP (stubEnv 0).ids, e.2 = v)) := by
  have h1 : ∀ e ∈ NE_FTYPE_MAP (stubEnv 0).ids, e.1 ≠ "2abc".toList := by decide
  have h2 : wholeDecimal "2abc".toList = none := by decide
  have h3 : try_parse_ftype (stubEnv 0).ids "2abc".toList = some (2, "q4_0".toList) := by decide
  refine ⟨h1, h2, h3, by decide, by decide, by decide, ?_⟩
  intro hiff
  have hnone := hiff.2 ⟨h1, by
    rintro ⟨v, hv, -⟩
    rw [h2] at hv
    cases hv⟩
  rw [h3] at hnone
  cases hnone

/-! ## Runs of `main`, by the outcome of parsing -/

theorem typeResolved_run (env : Env) (argv : List Str) (ft : Int) (T : Str) (idx : Nat)
    (h : TypeResolved env.ids argv ft T idx) :
    ∃ inp out : Str, argv[1]? = some inp ∧
      main env argv = main_nthreads env argv idx inp out ft T [Event.model_init_backend] := by
  rcases h with ⟨t, h2, hT, hidx⟩ | ⟨a, t, h2, ha, h3, hT, hidx⟩
  · obtain ⟨inp, h1⟩ := getElem?_one_of_two h2
    subst hidx
    exact ⟨inp, _, h1, main_derived env argv inp t ft T h1 h2 hT⟩
  · obtain ⟨inp, h1⟩ := getElem?_one_of_two h2
    subst hidx
    exact ⟨inp, a, h1, main_explicit env argv inp a t ft T h1 h2 ha h3 hT⟩

theorem typeResolved_unique {ids : FtypeIds} {argv : List Str} {ft ft' : Int} {T T' : Str}
    {idx idx' : Nat} (h : TypeResolved ids argv ft T idx) (h' : TypeResolved ids argv ft' T' idx') :
    ft = ft' ∧ T = T' ∧ idx = idx' := by
  rcases h with ⟨t, h2, hT, hidx⟩ | ⟨a, t, h2, ha, h3, hT, hidx⟩ <;>
    rcases h' with ⟨t', h2', hT', hidx'⟩ | ⟨a', t', h2', ha', h3', hT', hidx'⟩
  · rw [h2] at h2'
    injection h2' with h2'
    subst h2'
    rw [hT] at hT'
    injection hT' with hT'
    injection hT' with h1 h2
    exact ⟨h1, h2, by omega⟩
  · rw [h2] at h2'
    injection h2' with h2'
    subst h2'
    rw [hT] at ha'
    cases ha'
  · rw [h2] at h2'
    injection h2' with h2'
    subst h2'
    rw [hT'] at ha
    cases ha
  · rw [h3] at h3'
    injection h3' with h3'
    subst h3'
    rw [hT] at hT'
    injection hT' with hT'
    injection hT' with h1 h2
    exact ⟨h1, h2, by omega⟩

theorem threadCount_or_error (argv : List Str) (idx : Nat) :
    (∃ n, ThreadCount argv idx n) ∨
    (∃ tok e, argv[idx]? = some tok ∧ stoi tok = .error e) := by
  cases h : argv[idx]? with
  | none => exact Or.inl ⟨0, Or.inl ⟨h, rfl⟩⟩
  | some tok =>
    cases hs : stoi tok with
    | ok n => exact Or.inl ⟨n, Or.inr ⟨tok, h, hs⟩⟩
    | error e => exact Or.inr ⟨tok, e, rfl, hs⟩

theorem not_threadCount_of_error {argv : List Str} {idx : Nat} {tok : Str} {e : StoiError}
    (h : argv[idx]? = some tok) (hs : stoi tok = .error e) (n : Int) :
    ¬ ThreadCount argv idx n := by
  rintro (⟨h0, -⟩ | ⟨tok', h', hs'⟩)
  · rw [h] at h0; cases h0
  · rw [h] at h'
    injection h' with h'
    subst h'
    rw [hs] at hs'
    cases hs'

theorem nthread_error_run (env : Env) (argv : List Str) (ft : Int) (T : Str) (idx : Nat)
    (tok : Str) (e : StoiError) (hres : TypeResolved env.ids argv ft T idx)
    (htok : argv[idx]? = some tok) (hs : stoi tok = .error e) :
    main env argv = some
      { trace := [Event.model_init_backend,
                  Event.stderr ("main: invalid nthread ".toList ++ [sq] ++ tok ++ [sq]
                    ++ " (".toList ++ env.what e ++ ")".toList ++ [nl])],
        status := 1 } := by
  obtain ⟨inp, out, -, hmain⟩ := typeResolved_run env argv ft T idx hres
  rw [hmain, main_nthreads_error env argv idx inp out ft T _ tok e htok hs]
  rfl

theorem unresolved_run (env : Env) (argv : List Str) (hlen : 3 ≤ argv.length)
    (h : ¬ ∃ ft T idx, TypeResolved env.ids argv ft T idx) :
    ∃ a, argv[2]? = some a ∧ try_parse_ftype env.ids a = none ∧
      ((argv[3]? = none ∧
        main env argv = some
          { trace := [Event.model_init_backend,
                      Event.stderr ("main: missing ftype".toList ++ [nl])],
            status := 1 }) ∨
       (∃ b, argv[3]? = some b ∧ try_parse_ftype env.ids b = none ∧
        main env argv = some
          { trace := [Event.model_init_backend,
                      Event.stderr ("main: invalid ftype ".toList ++ [sq] ++ b ++ [sq] ++ [nl])],
            status := 1 })) := by
  have h2 : argv[2]? = some argv[2] := List.getElem?_eq_getElem (by omega)
  refine ⟨argv[2], h2, ?_⟩
  cases ha : try_parse_ftype env.ids argv[2] with
  | some r => exact absurd ⟨r.1, r.2, 3, Or.inl ⟨_, h2, ha, rfl⟩⟩ h
  | none =>
    refine ⟨rfl, ?_⟩
    cases h3 : argv[3]? with
    | none => exact Or.inl ⟨rfl, main_missing env argv _ h2 ha h3⟩
    | some b =>
      cases hb : try_parse_ftype env.ids b with
      | some r => exact absurd ⟨r.1, r.2, 4, Or.inr ⟨_, b, h2, ha, h3, hb, rfl⟩⟩ h
      | none => exact Or.inr ⟨b, rfl, hb, main_invalid env argv _ b h2 ha h3 hb⟩

theorem typeResolved_length {ids : FtypeIds} {argv : List Str} {ft : Int} {T : Str} {idx : Nat}
    (h : TypeResolved ids argv ft T idx) : 3 ≤ argv.length := by
  rcases h with ⟨t, h2, -⟩ | ⟨a, t, h2, -⟩ <;> exact length_of_getElem? h2

theorem stderrText_two (tr : Str) :
    stderrText [Event.model_init_backend, Event.stderr tr] = tr := by
  simp [stderrText]

/-- C7, as amended. When a type has been consumed and an argument `tok`
remains at the thread-count position: if `std::stoi` reads no `int` from
`tok` (after leading white space and an optional sign there is no digit, or
the value of the digits does not fit an `int`), the run writes
`main: invalid nthread '<tok>' (<what>)` to `stderr`, returns 1 and never
calls `model_model_quantize`; if `std::stoi` reads the `int` value `v` from
`tok`, whatever follows the digits and whatever white space precedes them,
the engine is called with `v` as thread count; in particular so when `tok`
is, in its entirety, a signed decimal integer within the range of `int`. -/
theorem invalid_thread_count (env : Env) (argv : List Str) (ft : Int) (T : Str) (idx : Nat)
    (tok : Str) (hres : TypeResolved env.ids argv ft T idx) (htok : argv[idx]? = some tok) :
    ((¬ ∃ v : Int, ReadsAs tok v ∧ INT_MIN ≤ v ∧ v ≤ INT_MAX) →
      ∃ (e : StoiError) (o : Outcome), stoi tok = .error e ∧ main env argv = some o ∧
        o.status = 1 ∧ engineCalls o.trace = [] ∧
        stderrText o.trace = "main: invalid nthread ".toList ++ [sq] ++ tok ++ [sq]
          ++ " (".toList ++ env.what e ++ ")".toList ++ [nl] ∧
        tok <:+: stderrText o.trace) ∧
    (∀ v : Int, ReadsAs tok v → INT_MIN ≤ v → v ≤ INT_MAX →
      ∃ (o : Outcome) (inp out : Str), main env argv = some o ∧
        engineCalls o.trace = [(inp, out, ft, v)] ∧
        o.status = (if env.model_model_quantize inp out ft v = 0 then 0 else 1)) ∧
    (∀ v : Int, wholeDecimal tok = some v → INT_MIN ≤ v → v ≤ INT_MAX →
      ∃ (o : Outcome) (inp out : Str), main env argv = some o ∧
        engineCalls o.trace = [(inp, out, ft, v)]) := by
  refine ⟨?_, ?_, ?_⟩
  · intro hbad
    cases hs : stoi tok with
    | ok v =>
      obtain ⟨hread, hlo, hhi⟩ := readsAs_of_stoi hs
      exact absurd ⟨v, hread, hlo, hhi⟩ hbad
    | error e =>
      refine ⟨e, _, rfl, nthread_error_run env argv ft T idx tok e hres htok hs, rfl, rfl, ?_, ?_⟩
      · exact stderrText_two _
      · rw [stderrText_two]
        exact ⟨"main: invalid nthread ".toList ++ [sq],
          [sq] ++ " (".toList ++ env.what e ++ ")".toList ++ [nl], by simp⟩
  · intro v hv hlo hhi
    obtain ⟨inp, out, -, hmain⟩ := typeResolved_run env argv ft T idx hres
    refine ⟨main_quantize env inp out ft T v [Event.model_init_backend], inp, out, ?_, ?_, ?_⟩
    · rw [hmain]
      exact main_nthreads_ok env argv idx inp out ft T _ tok v htok
        (stoi_of_readsAs hv ⟨hlo, hhi⟩)
    · rw [main_quantize_calls]
      rfl
    · exact main_quantize_status env inp out ft T v _
  · intro v hv hlo hhi
    obtain ⟨inp, out, -, hmain⟩ := typeResolved_run env argv ft T idx hres
    refine ⟨main_quantize env inp out ft T v [Event.model_init_backend], inp, out, ?_, ?_⟩
    · rw [hmain]
      exact main_nthreads_ok env argv idx inp out ft T _ tok v htok
        (stoi_of_wholeDecimal hv ⟨hlo, hhi⟩)
    · rw [main_quantize_calls]
      rfl

theorem invalid_thread_count_witness :
    TypeResolved (stubEnv 0).ids
      ["quantize".toList, "in.bin".toList, "q4_0".toList, "x8".toList] 2 "q4_0".toList 3 ∧
    (∃ (e : StoiError) (o : Outcome), stoi "x8".toList = .error e ∧
      main (stubEnv 0) ["quantize".toList, "in.bin".toList, "q4_0".toList, "x8".toList] = some o ∧
      o.status = 1 ∧ engineCalls o.trace = [] ∧
      stderrText o.trace = "main: invalid nthread ".toList ++ [sq] ++ "x8".toList ++ [sq]
        ++ " (".toList ++ (stubEnv 0).what e ++ ")".toList ++ [nl] ∧
      "x8".toList <:+: stderrText o.trace) :=
  ⟨Or.inl ⟨"q4_0".toList, rfl, rfl, rfl⟩,
   (invalid_thread_count (stubEnv 0)
      ["quantize".toList, "in.bin".toList, "q4_0".toList, "x8".toList] 2 "q4_0".toList 3
      "x8".toList (Or.inl ⟨"q4_0".toList, rfl, rfl, rfl⟩) rfl).1
      (by
        rintro ⟨v, hread, hlo, hhi⟩
        have := stoi_of_readsAs hread ⟨hlo, hhi⟩
        have h2 : stoi "x8".toList = .error .invalid_argument := rfl
        rw [h2] at this
        cases this)⟩

/-- C7, as stated, fails: the thread-count tokens `8x`, ` 8` and `8.5` are
not signed decimal integers, yet on `argv = [quantize, in.bin, q4_0, tok]`
with each of them `main` returns 0 and calls `model_model_quantize` with
the thread count 8. -/
theorem invalid_thread_count_counterexample :
    wholeDecimal "8x".toList = none ∧
    (main (stubEnv 0) ["quantize".toList, "in.bin".toList, "q4_0".toList, "8x".toList]).map
        (fun o => (engineCalls o.trace, o.status))
      = some ([("in.bin".toList, "ne-model-q4_0.bin".toList, 2, 8)], 0) ∧
    wholeDecimal " 8".toList = none ∧
    (main (stubEnv 0) ["quantize".toList, "in.bin".toList, "q4_0".toList, " 8".toList]).map
        (fun o => (engineCalls o.trace, o.status))
      = some ([("in.bin".toList, "ne-model-q4_0.bin".toList, 2, 8)], 0) ∧
    wholeDecimal "8.5".toList = none ∧
    (main (stubEnv 0) ["quantize".toList, "in.bin".toList, "q4_0".toList, "8.5".toList]).map
        (fun o => (engineCalls o.trace, o.status))
      = some ([("in.bin".toList, "ne-model-q4_0.bin".toList, 2, 8)], 0) :=
  ⟨rfl, rfl, rfl, rfl, rfl, rfl⟩

theorem engineCalls_usage (a : Event) (m : List (Str × Int)) (f : Str × Int → Str) :
    engineCalls (a :: m.map (fun it => Event.stderr (f it))) = engineCalls [a] := by
  induction m with
  | nil => rfl
  | cons x xs ih =>
    simp only [engineCalls, List.map_cons, List.filterMap_cons] at ih ⊢
    cases a <;> simp

/-- C8. For every `argv` that holds at least the program name, `main`
returns 0 or 1; it returns 0 exactly when `argv` has at least 3 elements, a
type is resolved (from `argv[2]`, or from `argv[3]` when `argv[2]` does not
resolve), the thread-count token is absent or `std::stoi` reads it, and the
call of `model_model_quantize` made with that type and thread count
returns 0. -/
theorem exit_status (env : Env) (argv : List Str) (hne : argv ≠ []) :
    ∃ o : Outcome, main env argv = some o ∧ (o.status = 0 ∨ o.status = 1) ∧
      (o.status = 0 ↔
        3 ≤ argv.length ∧
        ∃ (ft : Int) (T : Str) (idx : Nat) (n : Int),
          TypeResolved env.ids argv ft T idx ∧ ThreadCount argv idx n ∧
          ∃ c ∈ engineCalls o.trace, c.2.2 = (ft, n) ∧
            env.model_model_quantize c.1 c.2.1 c.2.2.1 c.2.2.2 = 0) := by
  by_cases hlen : argv.length < 3
  · obtain ⟨a0, -, hmain⟩ := main_lt3 env argv hlen hne
    refine ⟨_, hmain, Or.inr rfl, ?_⟩
    constructor
    · intro h; exact absurd h (by decide : ¬ ((1 : Int) = 0))
    · rintro ⟨h3, -⟩; omega
  · have hlen3 : 3 ≤ argv.length := by omega
    by_cases hres : ∃ ft T idx, TypeResolved env.ids argv ft T idx
    · obtain ⟨ft, T, idx, hres⟩ := hres
      obtain ⟨inp, out, -, hmain⟩ := typeResolved_run env argv ft T idx hres
      rcases threadCount_or_error argv idx with ⟨n, hn⟩ | ⟨tok, e, htok, hs⟩
      · refine ⟨main_quantize env inp out ft T n [Event.model_init_backend], ?_, ?_, ?_⟩
        · rw [hmain]
          exact main_nthreads_of_threadCount env argv idx inp out ft T _ n hn
        · rw [main_quantize_status]
          by_cases h0 : env.model_model_quantize inp out ft n = 0
          · left; rw [if_pos h0]
          · right; rw [if_neg h0]
        · rw [main_quantize_status, main_quantize_calls]
          have hcalls : engineCalls [Event.model_init_backend] ++ [(inp, out, ft, n)]
              = [(inp, out, ft, n)] := rfl
          rw [hcalls]
          constructor
          · intro h
            have h0 : env.model_model_quantize inp out ft n = 0 := by
              by_contra hc
              rw [if_neg hc] at h
              exact absurd h (by decide : ¬ ((1 : Int) = 0))
            exact ⟨hlen3, ft, T, idx, n, hres, hn, (inp, out, ft, n), List.mem_singleton.2 rfl,
              rfl, h0⟩
          · rintro ⟨-, ft', T', idx', n', -, -, c, hc, -, h0⟩
            rw [List.mem_singleton] at hc
            subst hc
            rw [if_pos h0]
      · refine ⟨_, nthread_error_run env argv ft T idx tok e hres htok hs, Or.inr rfl, ?_⟩
        constructor
        · intro h; exact absurd h (by decide : ¬ ((1 : Int) = 0))
        · rintro ⟨-, ft', T', idx', n', hres', hn', -⟩
          obtain ⟨-, -, hidx⟩ := typeResolved_unique hres hres'
          subst hidx
          exact absurd hn' (not_threadCount_of_error htok hs n')
    · obtain ⟨a, -, -, hcase⟩ := unresolved_run env argv hlen3 hres
      rcases hcase with ⟨-, hmain⟩ | ⟨b, -, -, hmain⟩
      · refine ⟨_, hmain, Or.inr rfl, ?_⟩
        constructor
        · intro h; exact absurd h (by decide : ¬ ((1 : Int) = 0))
        · rintro ⟨-, ft', T', idx', n', hres', -⟩
          exact absurd ⟨ft', T', idx', hres'⟩ hres
      · refine ⟨_, hmain, Or.inr rfl, ?_⟩
        constructor
        · intro h; exact absurd h (by decide : ¬ ((1 : Int) = 0))
        · rintro ⟨-, ft', T', idx', n', hres', -⟩
          exact absurd ⟨ft', T', idx', hres'⟩ hres

theorem exit_status_witness :
    ["quantize".toList, "in.bin".toList, "out.bin".toList, "q5_1".toList, "8".toList] ≠ [] ∧
    (∃ o : Outcome,
      main (stubEnv 5)
        ["quantize".toList, "in.bin".toList, "out.bin".toList, "q5_1".toList, "8".toList]
        = some o ∧ o.status = 1) ∧
    (∃ o : Outcome,
      main (stubEnv 0)
        ["quantize".toList, "in.bin".toList, "out.bin".toList, "q5_1".toList, "8".toList]
        = some o ∧ o.status = 0) := by
  refine ⟨by simp, ?_, ?_⟩
  · obtain ⟨o, hmain, -, -⟩ := exit_status (stubEnv 5)
      ["quantize".toList, "in.bin".toList, "out.bin".toList, "q5_1".toList, "8".toList]
      (by simp)
    refine ⟨o, hmain, ?_⟩
    have h2 : main (stubEnv 5)
        ["quantize".toList, "in.bin".toList, "out.bin".toList, "q5_1".toList, "8".toList]
        = some (main_quantize (stubEnv 5) "in.bin".toList "out.bin".toList 9 "q5_1".toList 8
            [Event.model_init_backend]) := rfl
    rw [h2] at hmain
    injection hmain with hmain
    rw [← hmain]
    rfl
  · obtain ⟨o, hmain, -, hiff⟩ := exit_status (stubEnv 0)
      ["quantize".toList, "in.bin".toList, "out.bin".toList, "q5_1".toList, "8".toList]
      (by simp)
    refine ⟨o, hmain, ?_⟩
    have h2 : main (stubEnv 0)
        ["quantize".toList, "in.bin".toList, "out.bin".toList, "q5_1".toList, "8".toList]
        = some (main_quantize (stubEnv 0) "in.bin".toList "out.bin".toList 9 "q5_1".toList 8
            [Event.model_init_backend]) := rfl
    rw [h2] at hmain
    injection hmain with hmain
    rw [← hmain]
    rfl

/-- C9. In a run that ends in a parser error, `model_model_quantize` is
never called and `main` returns 1.  With fewer than 3 arguments the first
thing written is the usage header; with exactly 3 arguments and `argv[2]`
not resolving, `stderr` contains `missing ftype`; with `argv[2]` and
`argv[3]` both not resolving, `stderr` contains `invalid ftype '<argv[3]>'`;
the fourth error is a thread count that `std::stoi` rejects. -/
theorem failure_shortcuts (env : Env) (argv : List Str) (hne : argv ≠ []) :
    (argv.length < 3 →
      ∃ (o : Outcome) (argv0 : Str), argv[0]? = some argv0 ∧ main env argv = some o ∧
        o.status = 1 ∧ engineCalls o.trace = [] ∧
        o.trace.head? = some (Event.stderr ("usage: ".toList ++ argv0
          ++ " model-f32.bin [model-quant.bin] type [nthreads]".toList ++ [nl]))) ∧
    (∀ a : Str, argv.length = 3 → argv[2]? = some a → try_parse_ftype env.ids a = none →
      ∃ o : Outcome, main env argv = some o ∧ o.status = 1 ∧ engineCalls o.trace = [] ∧
        "missing ftype".toList <:+: stderrText o.trace) ∧
    (∀ a b : Str, argv[2]? = some a → try_parse_ftype env.ids a = none →
      argv[3]? = some b → try_parse_ftype env.ids b = none →
      ∃ o : Outcome, main env argv = some o ∧ o.status = 1 ∧ engineCalls o.trace = [] ∧
        ("invalid ftype ".toList ++ [sq] ++ b ++ [sq]) <:+: stderrText o.trace) ∧
    (∀ (ft : Int) (T : Str) (idx : Nat) (tok : Str) (e : StoiError),
      TypeResolved env.ids argv ft T idx → argv[idx]? = some tok → stoi tok = .error e →
      ∃ o : Outcome, main env argv = some o ∧ o.status = 1 ∧ engineCalls o.trace = [] ∧
        ("invalid nthread ".toList ++ [sq] ++ tok ++ [sq]) <:+: stderrText o.trace) := by
  refine ⟨?_, ?_, ?_, ?_⟩
  · intro hlen
    obtain ⟨a0, h0, hmain⟩ := main_lt3 env argv hlen hne
    refine ⟨_, a0, h0, hmain, rfl, ?_, rfl⟩
    exact engineCalls_usage _ _ _
  · intro a hlen h2 ha
    have h3 : argv[3]? = none := List.getElem?_eq_none (by omega)
    refine ⟨_, main_missing env argv a h2 ha h3, rfl, rfl, ?_⟩
    rw [stderrText_two]
    exact ⟨"main: ".toList, [nl], rfl⟩
  · intro a b h2 ha h3 hb
    refine ⟨_, main_invalid env argv a b h2 ha h3 hb, rfl, rfl, ?_⟩
    rw [stderrText_two]
    exact ⟨"main: ".toList, [nl], by simp⟩
  · intro ft T idx tok e hres htok hs
    refine ⟨_, nthread_error_run env argv ft T idx tok e hres htok hs, rfl, rfl, ?_⟩
    rw [stderrText_two]
    exact ⟨"main: ".toList, " (".toList ++ env.what e ++ ")".toList ++ [nl], by simp⟩

theorem failure_shortcuts_witness :
    (∃ (o : Outcome) (argv0 : Str),
      ["quantize".toList, "in.bin".toList][0]? = some argv0 ∧
      main (stubEnv 0) ["quantize".toList, "in.bin".toList] = some o ∧
      o.status = 1 ∧ engineCalls o.trace = [] ∧
      o.trace.head? = some (Event.stderr ("usage: ".toList ++ argv0
        ++ " model-f32.bin [model-quant.bin] type [nthreads]".toList ++ [nl]))) ∧
    (∃ o : Outcome,
      main (stubEnv 0) ["quantize".toList, "in.bin".toList, "out.bin".toList] = some o ∧
      o.status = 1 ∧ engineCalls o.trace = [] ∧
      "missing ftype".toList <:+: stderrText o.trace) ∧
    (∃ o : Outcome,
      main (stubEnv 0) ["quantize".toList, "in.bin".toList, "out.bin".toList, "nope".toList]
        = some o ∧
      o.status = 1 ∧ engineCalls o.trace = [] ∧
      ("invalid ftype ".toList ++ [sq] ++ "nope".toList ++ [sq]) <:+: stderrText o.trace) :=
  ⟨(failure_shortcuts (stubEnv 0) ["quantize".toList, "in.bin".toList] (by simp)).1 (by decide),
   (failure_shortcuts (stubEnv 0) ["quantize".toList, "in.bin".toList, "out.bin".toList]
      (by simp)).2.1 "out.bin".toList rfl rfl rfl,
   (failure_shortcuts (stubEnv 0)
      ["quantize".toList, "in.bin".toList, "out.bin".toList, "nope".toList]
      (by simp)).2.2.1 "out.bin".toList "nope".toList rfl rfl rfl rfl⟩

/-! ## The status line -/

theorem try_parse_ftype_mem {ids : FtypeIds} {tok : Str} {ft : Int} {T : Str}
    (h : try_parse_ftype ids tok = some (ft, T)) : (T, ft) ∈ NE_FTYPE_MAP ids := by
  cases hm : mapFind (NE_FTYPE_MAP ids) tok with
  | some it =>
    rw [try_parse_ftype_of_mapFind hm] at h
    injection h with h
    injection h with h1 h2
    rw [← h1, ← h2]
    exact List.mem_of_find?_eq_some hm
  | none =>
    cases hs : stoi tok with
    | error e => simp [try_parse_ftype, hm, hs] at h
    | ok v =>
      rw [try_parse_ftype_numeric hm hs] at h
      cases hf : (NE_FTYPE_MAP ids).find? (fun it => it.2 == v) with
      | none => rw [hf] at h; cases h
      | some it =>
        rw [hf] at h
        simp only [Option.map_some', Option.some.injEq, Prod.mk.injEq] at h
        rw [← h.1, ← h.2]
        exact List.mem_of_find?_eq_some hf

theorem name_last {ids : FtypeIds} {T : Str} {ft : Int} (h : (T, ft) ∈ NE_FTYPE_MAP ids) :
    ∃ (T' : Str) (b : Char), T = T' ++ [b] ∧ b ≠ 's' := by
  rcases mem_NE_FTYPE_MAP h with h | h | h | h | h | h | h | h | h <;>
    injection h with h1 _ <;> subst h1
  · exact ⟨"q4_".toList, '0', rfl, by decide⟩
  · exact ⟨"q4_".toList, '1', rfl, by decide⟩
  · exact ⟨"q4_j_b102".toList, '4', rfl, by decide⟩
  · exact ⟨"q4_j_b12".toList, '8', rfl, by decide⟩
  · exact ⟨"q4_j_b3".toList, '2', rfl, by decide⟩
  · exact ⟨"q4_j_bf16_b3".toList, '2', rfl, by decide⟩
  · exact ⟨"q5_".toList, '0', rfl, by decide⟩
  · exact ⟨"q5_".toList, '1', rfl, by decide⟩
  · exact ⟨"q8_".toList, '0', rfl, by decide⟩

theorem not_suffix_of_last (A B : Str) (a b : Char) (hab : a ≠ b) :
    ¬ (A ++ [a, nl]) <:+ (B ++ [b, nl]) := by
  rintro ⟨t, ht⟩
  rw [← List.append_assoc] at ht
  have := List.append_inj_right' ht rfl
  injection this with h1 _
  exact hab h1

/-- C10. On every `argv` that parses (a type is resolved, the thread count
is absent or read by `std::stoi` as `n`), the engine is called once with
thread count `n`, and what `stderr` has received before that call is the
line `main: quantizing '<input>' to '<output>' as <name>`, followed by
` using <n> threads` exactly when `n > 0`, and a line feed.  Without a
thread-count argument `n` is 0; a thread-count argument that is a signed
decimal integer `N` within `int` range gives `n = N`; for `n > 0` the line
ends with ` using <n> threads`, and for `n ≤ 0` it ends with no text of
that form. -/
theorem thread_count_optionality (env : Env) (argv : List Str) (ft : Int) (T : Str) (idx : Nat)
    (n : Int) (hres : TypeResolved env.ids argv ft T idx) (hn : ThreadCount argv idx n) :
    ∃ (o : Outcome) (inp out : Str), main env argv = some o ∧
      engineCalls o.trace = [(inp, out, ft, n)] ∧
      stderrText (beforeCall o.trace)
        = "main: quantizing ".toList ++ [sq] ++ inp ++ [sq] ++ " to ".toList ++ [sq] ++ out
            ++ [sq] ++ " as ".toList ++ T
            ++ (if n > 0 then " using ".toList ++ fmt_d n ++ " threads".toList else [])
            ++ [nl] ∧
      (argv[idx]? = none → n = 0) ∧
      (∀ (tok : Str) (N : Int), argv[idx]? = some tok → wholeDecimal tok = some N →
        INT_MIN ≤ N → N ≤ INT_MAX → n = N) ∧
      (n > 0 → (" using ".toList ++ fmt_d n ++ " threads".toList ++ [nl])
        <:+ stderrText (beforeCall o.trace)) ∧
      (¬ n > 0 → ∀ m : Int, ¬ (" using ".toList ++ fmt_d m ++ " threads".toList ++ [nl])
        <:+ stderrText (beforeCall o.trace)) := by
  obtain ⟨inp, out, -, hmain⟩ := typeResolved_run env argv ft T idx hres
  have hT : ∃ tok, try_parse_ftype env.ids tok = some (ft, T) := by
    rcases hres with ⟨t, -, hT, -⟩ | ⟨a, t, -, -, -, hT, -⟩ <;> exact ⟨t, hT⟩
  obtain ⟨tokT, hT⟩ := hT
  obtain ⟨T', b, hTb, hb⟩ := name_last (try_parse_ftype_mem hT)
  refine ⟨main_quantize env inp out ft T n [Event.model_init_backend], inp, out, ?_, ?_,
    main_quantize_before env inp out ft T n, ?_, ?_, ?_, ?_⟩
  · rw [hmain]
    exact main_nthreads_of_threadCount env argv idx inp out ft T _ n hn
  · rw [main_quantize_calls]
    rfl
  · intro h0
    rcases hn with ⟨-, hn⟩ | ⟨tok, htok, -⟩
    · exact hn
    · rw [h0] at htok; cases htok
  · intro tok N htok hN hlo hhi
    rcases hn with ⟨h0, -⟩ | ⟨tok', htok', hs⟩
    · rw [h0] at htok; cases htok
    · rw [htok] at htok'
      injection htok' with htok'
      subst htok'
      rw [stoi_of_wholeDecimal hN ⟨hlo, hhi⟩] at hs
      injection hs with hs
      exact hs.symm
  · intro hpos
    rw [main_quantize_before, if_pos hpos]
    exact ⟨"main: quantizing ".toList ++ [sq] ++ inp ++ [sq] ++ " to ".toList ++ [sq] ++ out
      ++ [sq] ++ " as ".toList ++ T, by simp⟩
  · intro hpos m
    rw [main_quantize_before, if_neg hpos, hTb]
    have h1 : " using ".toList ++ fmt_d m ++ " threads".toList ++ [nl]
        = (" using ".toList ++ fmt_d m ++ " thread".toList) ++ ['s', nl] := by
      have : " threads".toList = " thread".toList ++ ['s'] := rfl
      rw [this]
      simp
    have h2 : "main: quantizing ".toList ++ [sq] ++ inp ++ [sq] ++ " to ".toList ++ [sq] ++ out
        ++ [sq] ++ " as ".toList ++ (T' ++ [b]) ++ [] ++ [nl]
        = ("main: quantizing ".toList ++ [sq] ++ inp ++ [sq] ++ " to ".toList ++ [sq] ++ out
        ++ [sq] ++ " as ".toList ++ T') ++ [b, nl] := by simp
    rw [h1, h2]
    exact not_suffix_of_last _ _ 's' b (fun h => hb h.symm)

theorem thread_count_optionality_witness :
    TypeResolved (stubEnv 0).ids
      ["quantize".toList, "in.bin".toList, "out.bin".toList, "q5_1".toList, "8".toList]
      9 "q5_1".toList 4 ∧
    ThreadCount
      ["quantize".toList, "in.bin".toList, "out.bin".toList, "q5_1".toList, "8".toList] 4 8 ∧
    ∃ o : Outcome,
      main (stubEnv 0)
        ["quantize".toList, "in.bin".toList, "out.bin".toList, "q5_1".toList, "8".toList]
        = some o ∧
      (" using 8 threads".toList ++ [nl]) <:+ stderrText (beforeCall o.trace) := by
  have hres : TypeResolved (stubEnv 0).ids
      ["quantize".toList, "in.bin".toList, "out.bin".toList, "q5_1".toList, "8".toList]
      9 "q5_1".toList 4 :=
    Or.inr ⟨"out.bin".toList, "q5_1".toList, rfl, rfl, rfl, rfl, rfl⟩
  have hn : ThreadCount
      ["quantize".toList, "in.bin".toList, "out.bin".toList, "q5_1".toList, "8".toList] 4 8 :=
    Or.inr ⟨"8".toList, rfl, rfl⟩
  obtain ⟨o, inp, out, hmain, -, -, -, -, hsuf, -⟩ :=
    thread_count_optionality (stubEnv 0) _ 9 "q5_1".toList 4 8 hres hn
  exact ⟨hres, hn, o, hmain, hsuf (by decide)⟩

/-! ## The trace of a run that reaches the engine -/

theorem main_quantize_trace (env : Env) (inp out : Str) (ft : Int) (T : Str) (n : Int)
    (tr : List Event) :
    (main_quantize env inp out ft T n tr).trace =
      tr ++ [Event.stderr ("main: quantizing ".toList ++ [sq] ++ inp ++ [sq]
              ++ " to ".toList ++ [sq] ++ out ++ [sq] ++ " as ".toList ++ T)]
        ++ (if n > 0 then [Event.stderr (" using ".toList ++ fmt_d n ++ " threads".toList)]
            else [])
        ++ [Event.stderr [nl], Event.model_time_us, Event.model_time_us,
            Event.model_model_quantize inp out ft n]
        ++ (if env.model_model_quantize inp out ft n ≠ 0 then
              [Event.stderr ("main: failed to quantize model from ".toList ++ [sq]
                ++ inp ++ [sq] ++ [nl])]
            else
              [Event.model_time_us, Event.model_time_us, Event.stdout [nl],
               Event.stdout_ms "main: quantize time = ".toList
                 (env.model_time_us 2 - env.model_time_us 1),
               Event.stdout_ms "main:    total time = ".toList
                 (env.model_time_us 3 - env.model_time_us 0)]) := by
  unfold main_quantize
  by_cases h : env.model_model_quantize inp out ft n = 0 <;> by_cases hn : n > 0 <;>
    simp [h, hn]

theorem typeResolved_run_out (env : Env) (argv : List Str) (ft : Int) (T : Str) (idx : Nat)
    (h : TypeResolved env.ids argv ft T idx) :
    ∃ inp out : Str, argv[1]? = some inp ∧
      main env argv = main_nthreads env argv idx inp out ft T [Event.model_init_backend] ∧
      ((idx = 3 ∧ out = fpath inp ++ "ne-model-".toList ++ T ++ ".bin".toList) ∨
       (idx = 4 ∧ argv[2]? = some out)) := by
  rcases h with ⟨t, h2, hT, hidx⟩ | ⟨a, t, h2, ha, h3, hT, hidx⟩
  · obtain ⟨inp, h1⟩ := getElem?_one_of_two h2
    subst hidx
    exact ⟨inp, _, h1, main_derived env argv inp t ft T h1 h2 hT, Or.inl ⟨rfl, rfl⟩⟩
  · obtain ⟨inp, h1⟩ := getElem?_one_of_two h2
    subst hidx
    exact ⟨inp, a, h1, main_explicit env argv inp a t ft T h1 h2 ha h3 hT, Or.inr ⟨rfl, h2⟩⟩

theorem stoi_neg_head {tok : Str} {v : Int} (h : stoi tok = .ok v) (hv : v < 0) :
    (tok.dropWhile isspace).head? = some '-' := by
  obtain ⟨c, r, hd, -, hval, -⟩ := stoi_inv h
  rw [hd]
  by_cases hm : (c == '-') = true
  · have : c = '-' := by simpa using hm
    rw [this]; rfl
  · rw [if_neg hm] at hval
    have : (0 : Int) ≤ v := by rw [hval]; exact Int.ofNat_nonneg _
    omega

/-- C11, as amended. On every `argv` that parses, the thread count passed to
`model_model_quantize` lies in the range of `int`, is 0 when there is no
thread-count argument, and is negative only when the thread-count token,
after its leading white space, starts with a minus sign. -/
theorem nthread_range (env : Env) (argv : List Str) (ft : Int) (T : Str) (idx : Nat) (n : Int)
    (hres : TypeResolved env.ids argv ft T idx) (hn : ThreadCount argv idx n) :
    ∃ (o : Outcome) (inp out : Str), main env argv = some o ∧
      engineCalls o.trace = [(inp, out, ft, n)] ∧
      INT_MIN ≤ n ∧ n ≤ INT_MAX ∧
      (argv[idx]? = none → n = 0) ∧
      (n < 0 → ∃ tok, argv[idx]? = some tok ∧ (tok.dropWhile isspace).head? = some '-') := by
  obtain ⟨inp, out, -, hmain⟩ := typeResolved_run env argv ft T idx hres
  refine ⟨main_quantize env inp out ft T n [Event.model_init_backend], inp, out, ?_, ?_, ?_⟩
  · rw [hmain]
    exact main_nthreads_of_threadCount env argv idx inp out ft T _ n hn
  · rw [main_quantize_calls]
    rfl
  · rcases hn with ⟨h0, hn0⟩ | ⟨tok, htok, hs⟩
    · subst hn0
      exact ⟨by decide, by decide, fun _ => rfl, fun h => absurd h (by decide)⟩
    · obtain ⟨-, hlo, hhi⟩ := readsAs_of_stoi hs
      refine ⟨hlo, hhi, ?_, ?_⟩
      · intro h0; rw [h0] at htok; cases htok
      · intro hneg
        exact ⟨tok, htok, stoi_neg_head hs hneg⟩

theorem nthread_range_witness :
    ∃ (o : Outcome) (inp out : Str),
      main (stubEnv 0) ["quantize".toList, "in.bin".toList, "q4_0".toList, "-8".toList]
        = some o ∧
      engineCalls o.trace = [(inp, out, 2, -8)] ∧
      INT_MIN ≤ (-8 : Int) ∧ (-8 : Int) ≤ INT_MAX ∧
      (["quantize".toList, "in.bin".toList, "q4_0".toList, "-8".toList][3]? = none
        → (-8 : Int) = 0) ∧
      ((-8 : Int) < 0 → ∃ tok,
        ["quantize".toList, "in.bin".toList, "q4_0".toList, "-8".toList][3]? = some tok ∧
        (tok.dropWhile isspace).head? = some '-') :=
  nthread_range (stubEnv 0) ["quantize".toList, "in.bin".toList, "q4_0".toList, "-8".toList]
    2 "q4_0".toList 3 (-8) (Or.inl ⟨"q4_0".toList, rfl, rfl, rfl⟩)
    (Or.inr ⟨"-8".toList, rfl, rfl⟩)

/-- C11, as stated, fails: `argv = [quantize, in.bin, q4_0, -8]` parses and
`model_model_quantize` is called with the thread count -8. -/
theorem nthread_nonneg_counterexample :
    (main (stubEnv 0) ["quantize".toList, "in.bin".toList, "q4_0".toList, "-8".toList]).map
        (fun o => (engineCalls o.trace, o.status))
      = some ([("in.bin".toList, "ne-model-q4_0.bin".toList, 2, -8)], 0) ∧
    ¬ ((0 : Int) ≤ -8) :=
  ⟨rfl, by decide⟩

/-- C12, as amended. On every `argv` that parses, the output path passed to
`model_model_quantize` is non-empty when it is derived (the type is
`argv[2]`); when `argv[2]` is the output path it is passed unchanged, so the
output path is empty exactly when `argv[2]` is given as the output path and
is the empty string. -/
theorem output_path_nonempty (env : Env) (argv : List Str) (ft : Int) (T : Str) (idx : Nat)
    (n : Int) (hres : TypeResolved env.ids argv ft T idx) (hn : ThreadCount argv idx n) :
    ∃ (o : Outcome) (inp out : Str), main env argv = some o ∧
      engineCalls o.trace = [(inp, out, ft, n)] ∧
      (idx = 3 → out ≠ []) ∧
      (idx = 4 → argv[2]? = some out) ∧
      (out = [] ↔ (idx = 4 ∧ argv[2]? = some [])) := by
  obtain ⟨inp, out, -, hmain, hout⟩ := typeResolved_run_out env argv ft T idx hres
  refine ⟨main_quantize env inp out ft T n [Event.model_init_backend], inp, out, ?_, ?_, ?_⟩
  · rw [hmain]
    exact main_nthreads_of_threadCount env argv idx inp out ft T _ n hn
  · rw [main_quantize_calls]
    rfl
  · rcases hout with ⟨hidx, hder⟩ | ⟨hidx, h2⟩
    · have hne : out ≠ [] := by
        rw [hder]
        intro h
        have hlen := congrArg List.length h
        simp at hlen
      refine ⟨fun _ => hne, fun h4 => by omega, ?_⟩
      constructor
      · intro h; exact absurd h hne
      · rintro ⟨h4, -⟩; omega
    · refine ⟨fun h3 => by omega, fun _ => h2, ?_⟩
      constructor
      · intro h; rw [h] at h2; exact ⟨hidx, h2⟩
      · rintro ⟨-, h2'⟩
        rw [h2] at h2'
        injection h2'

theorem output_path_nonempty_witness :
    ∃ (o : Outcome) (inp out : Str),
      main (stubEnv 0) ["quantize".toList, "in.bin".toList, "out.bin".toList, "q5_1".toList]
        = some o ∧
      engineCalls o.trace = [(inp, out, 9, 0)] ∧
      ((4 : Nat) = 3 → out ≠ []) ∧
      ((4 : Nat) = 4 →
        ["quantize".toList, "in.bin".toList, "out.bin".toList, "q5_1".toList][2]? = some out) ∧
      (out = [] ↔ ((4 : Nat) = 4 ∧
        ["quantize".toList, "in.bin".toList, "out.bin".toList, "q5_1".toList][2]? = some [])) :=
  output_path_nonempty (stubEnv 0)
    ["quantize".toList, "in.bin".toList, "out.bin".toList, "q5_1".toList]
    9 "q5_1".toList 4 0 (Or.inr ⟨"out.bin".toList, "q5_1".toList, rfl, rfl, rfl, rfl, rfl⟩)
    (Or.inl ⟨rfl, rfl⟩)

/-- C12, as stated, fails: `argv = [quantize, in.bin, "", q4_0]`, whose
`argv[2]` is the empty string, parses, and `model_model_quantize` is called
with the empty output path. -/
theorem output_path_empty_counterexample :
    (main (stubEnv 0) ["quantize".toList, "in.bin".toList, [], "q4_0".toList]).map
        (fun o => (engineCalls o.trace, o.status))
      = some ([("in.bin".toList, [], 2, 0)], 0) :=
  rfl

/-- C13. Whenever `try_parse_ftype` succeeds, by either phase and for any
identifiers, the pair it returns is an entry of the table: the name is a
canonical name, the exact-name lookup of that name finds this very pair, and
the name resolves to the same result; so the type and the name of every
parsed invocation form an entry of the table. -/
theorem name_id_consistency (ids : FtypeIds) (tok : Str) (ft : Int) (T : Str)
    (h : try_parse_ftype ids tok = some (ft, T)) :
    (T, ft) ∈ NE_FTYPE_MAP ids ∧
    mapFind (NE_FTYPE_MAP ids) T = some (T, ft) ∧
    try_parse_ftype ids T = some (ft, T) ∧
    (∀ (argv : List Str) (ft' : Int) (T' : Str) (idx : Nat),
      TypeResolved ids argv ft' T' idx →
        (T', ft') ∈ NE_FTYPE_MAP ids ∧ mapFind (NE_FTYPE_MAP ids) T' = some (T', ft')) := by
  have hmem := try_parse_ftype_mem h
  refine ⟨hmem, mapFind_of_mem hmem, try_parse_ftype_of_mapFind (mapFind_of_mem hmem), ?_⟩
  intro argv ft' T' idx hres
  have hT : ∃ t, try_parse_ftype ids t = some (ft', T') := by
    rcases hres with ⟨t, -, hT, -⟩ | ⟨a, t, -, -, -, hT, -⟩ <;> exact ⟨t, hT⟩
  obtain ⟨t, hT⟩ := hT
  exact ⟨try_parse_ftype_mem hT, mapFind_of_mem (try_parse_ftype_mem hT)⟩

theorem name_id_consistency_witness :
    try_parse_ftype (stubEnv 0).ids " 3abc".toList = some (3, "q4_1".toList) ∧
    ("q4_1".toList, (3 : Int)) ∈ NE_FTYPE_MAP (stubEnv 0).ids ∧
    mapFind (NE_FTYPE_MAP (stubEnv 0).ids) "q4_1".toList = some ("q4_1".toList, 3) :=
  ⟨rfl,
   (name_id_consistency (stubEnv 0).ids " 3abc".toList 3 "q4_1".toList rfl).1,
   (name_id_consistency (stubEnv 0).ids " 3abc".toList 3 "q4_1".toList rfl).2.1⟩

/-- C14. On every `argv` that parses, if `model_model_quantize` returns a
non-zero value then `main` returns 1, the last thing it does is to write
`main: failed to quantize model from '<argv[1]>'` to `stderr`, and nothing
in the run writes to `stdout`. -/
theorem engine_failure (env : Env) (argv : List Str) (ft : Int) (T : Str) (idx : Nat) (n : Int)
    (hres : TypeResolved env.ids argv ft T idx) (hn : ThreadCount argv idx n) :
    ∃ (o : Outcome) (inp out : Str), argv[1]? = some inp ∧ main env argv = some o ∧
      engineCalls o.trace = [(inp, out, ft, n)] ∧
      (env.model_model_quantize inp out ft n ≠ 0 →
        o.status = 1 ∧
        o.trace.getLast? = some (Event.stderr ("main: failed to quantize model from ".toList
          ++ [sq] ++ inp ++ [sq] ++ [nl])) ∧
        ([sq] ++ inp ++ [sq]) <:+: stderrText (afterCall o.trace) ∧
        (∀ ev ∈ o.trace, isStdout ev = false)) := by
  obtain ⟨inp, out, h1, hmain⟩ := typeResolved_run env argv ft T idx hres
  refine ⟨main_quantize env inp out ft T n [Event.model_init_backend], inp, out, h1, ?_, ?_, ?_⟩
  · rw [hmain]
    exact main_nthreads_of_threadCount env argv idx inp out ft T _ n hn
  · rw [main_quantize_calls]
    rfl
  · intro hfail
    refine ⟨?_, ?_, ?_, ?_⟩
    · rw [main_quantize_status, if_neg hfail]
    · rw [main_quantize_trace, if_pos hfail,
        List.getLast?_append_of_ne_nil _ (List.cons_ne_nil _ _)]
      rfl
    · rw [main_quantize_trace, if_pos hfail]
      refine ⟨"main: failed to quantize model from ".toList, [nl], ?_⟩
      by_cases hpos : n > 0 <;>
        simp [hpos, afterCall, stderrText, isEngineCall, List.dropWhile]
    · have hall : ((main_quantize env inp out ft T n [Event.model_init_backend]).trace.all
          (fun ev => !isStdout ev)) = true := by
        rw [main_quantize_trace, if_pos hfail]
        by_cases hpos : n > 0 <;> simp [hpos, isStdout]
      intro ev hev
      have := List.all_eq_true.1 hall ev hev
      simpa using this

theorem engine_failure_witness :
    ∃ (o : Outcome) (inp out : Str),
      ["quantize".toList, "models/llama/ne-model.bin".toList, "q4_0".toList][1]? = some inp ∧
      main (stubEnv 1) ["quantize".toList, "models/llama/ne-model.bin".toList, "q4_0".toList]
        = some o ∧
      engineCalls o.trace = [(inp, out, 2, 0)] ∧
      o.status = 1 ∧
      o.trace.getLast? = some (Event.stderr ("main: failed to quantize model from ".toList
        ++ [sq] ++ inp ++ [sq] ++ [nl])) ∧
      ([sq] ++ inp ++ [sq]) <:+: stderrText (afterCall o.trace) ∧
      (∀ ev ∈ o.trace, isStdout ev = false) := by
  obtain ⟨o, inp, out, h1, hmain, hcalls, hfail⟩ := engine_failure (stubEnv 1)
    ["quantize".toList, "models/llama/ne-model.bin".toList, "q4_0".toList]
    2 "q4_0".toList 3 0 (Or.inl ⟨"q4_0".toList, rfl, rfl, rfl⟩) (Or.inl ⟨rfl, rfl⟩)
  exact ⟨o, inp, out, h1, hmain, hcalls,
    hfail (fun h => absurd h (by decide : ¬ ((1 : Int) = 0)))⟩

/-! ## Every run of `main` -/

theorem main_cases (env : Env) (argv : List Str) (hne : argv ≠ []) :
    (argv.length < 3 ∧ ∃ argv0, argv[0]? = some argv0 ∧
      main env argv = some
        { trace :=
            Event.stderr ("usage: ".toList ++ argv0
              ++ " model-f32.bin [model-quant.bin] type [nthreads]".toList ++ [nl])
            :: (NE_FTYPE_MAP env.ids).map (fun it =>
                 Event.stderr ("  type = ".toList ++ [dq] ++ it.1 ++ [dq] ++ " or ".toList
                   ++ fmt_d it.2 ++ [nl])),
          status := 1 }) ∨
    (3 ≤ argv.length ∧ ∃ msg : Str,
      main env argv = some
        { trace := [Event.model_init_backend, Event.stderr msg], status := 1 }) ∨
    (3 ≤ argv.length ∧ ∃ (inp out : Str) (ft : Int) (T : Str) (n : Int),
      argv[1]? = some inp ∧
      main env argv = some (main_quantize env inp out ft T n [Event.model_init_backend])) := by
  by_cases hlen : argv.length < 3
  · exact Or.inl ⟨hlen, main_lt3 env argv hlen hne⟩
  · have hlen3 : 3 ≤ argv.length := by omega
    by_cases hres : ∃ ft T idx, TypeResolved env.ids argv ft T idx
    · obtain ⟨ft, T, idx, hres⟩ := hres
      obtain ⟨inp, out, h1, hmain⟩ := typeResolved_run env argv ft T idx hres
      rcases threadCount_or_error argv idx with ⟨n, hn⟩ | ⟨tok, e, htok, hs⟩
      · refine Or.inr (Or.inr ⟨hlen3, inp, out, ft, T, n, h1, ?_⟩)
        rw [hmain]
        exact main_nthreads_of_threadCount env argv idx inp out ft T _ n hn
      · exact Or.inr (Or.inl ⟨hlen3, _, nthread_error_run env argv ft T idx tok e hres htok hs⟩)
    · obtain ⟨a, -, -, hcase⟩ := unresolved_run env argv hlen3 hres
      rcases hcase with ⟨-, hmain⟩ | ⟨b, -, -, hmain⟩
      · exact Or.inr (Or.inl ⟨hlen3, _, hmain⟩)
      · exact Or.inr (Or.inl ⟨hlen3, _, hmain⟩)

theorem beforeCall_usage (a : Str) (m : List (Str × Int)) (f : Str × Int → Str) :
    beforeCall (Event.stderr a :: m.map (fun it => Event.stderr (f it)))
      = Event.stderr a :: m.map (fun it => Event.stderr (f it)) := by
  unfold beforeCall
  rw [List.takeWhile_eq_self_iff]
  intro ev hev
  rcases List.mem_cons.1 hev with h | h
  · subst h; rfl
  · obtain ⟨it, -, hit⟩ := List.mem_map.1 h
    subst hit; rfl

theorem afterCall_usage (a : Str) (m : List (Str × Int)) (f : Str × Int → Str) :
    afterCall (Event.stderr a :: m.map (fun it => Event.stderr (f it))) = [] := by
  unfold afterCall
  have : (Event.stderr a :: m.map (fun it => Event.stderr (f it))).dropWhile
      (fun ev => !isEngineCall ev) = [] := by
    rw [List.dropWhile_eq_nil_iff]
    intro ev hev
    rcases List.mem_cons.1 hev with h | h
    · subst h; rfl
    · obtain ⟨it, -, hit⟩ := List.mem_map.1 h
      subst hit; rfl
  rw [this]
  rfl

theorem main_quantize_beforeCall (env : Env) (inp out : Str) (ft : Int) (T : Str) (n : Int) :
    beforeCall (main_quantize env inp out ft T n [Event.model_init_backend]).trace =
      [Event.model_init_backend,
       Event.stderr ("main: quantizing ".toList ++ [sq] ++ inp ++ [sq]
         ++ " to ".toList ++ [sq] ++ out ++ [sq] ++ " as ".toList ++ T)]
      ++ (if n > 0 then [Event.stderr (" using ".toList ++ fmt_d n ++ " threads".toList)]
          else [])
      ++ [Event.stderr [nl], Event.model_time_us, Event.model_time_us] := by
  rw [main_quantize_trace]
  by_cases h : env.model_model_quantize inp out ft n = 0 <;> by_cases hn : n > 0 <;>
    simp [h, hn, beforeCall, isEngineCall, List.takeWhile]

theorem main_quantize_afterCall (env : Env) (inp out : Str) (ft : Int) (T : Str) (n : Int) :
    afterCall (main_quantize env inp out ft T n [Event.model_init_backend]).trace =
      if env.model_model_quantize inp out ft n ≠ 0 then
        [Event.stderr ("main: failed to quantize model from ".toList ++ [sq]
          ++ inp ++ [sq] ++ [nl])]
      else
        [Event.model_time_us, Event.model_time_us, Event.stdout [nl],
         Event.stdout_ms "main: quantize time = ".toList
           (env.model_time_us 2 - env.model_time_us 1),
         Event.stdout_ms "main:    total time = ".toList
           (env.model_time_us 3 - env.model_time_us 0)] := by
  rw [main_quantize_trace]
  by_cases h : env.model_model_quantize inp out ft n = 0 <;> by_cases hn : n > 0 <;>
    simp [h, hn, afterCall, isEngineCall, List.dropWhile]

/-! ## Order of the effects -/

/-- C15, as amended. In every run nothing is written to `stdout` before the
call of `model_model_quantize` (and nothing at all when there is no call);
the only write to `stderr` that follows the call is the diagnostic
`main: failed to quantize model from '<argv[1]>'`, written when the call
returns a non-zero value, after which `main` returns 1; a run that returns
0 writes nothing to `stderr` after the call. -/
theorem stream_ordering (env : Env) (argv : List Str) (hne : argv ≠ []) :
    ∃ o : Outcome, main env argv = some o ∧
      (∀ ev ∈ beforeCall o.trace, isStdout ev = false) ∧
      (∀ ev ∈ afterCall o.trace, isStderr ev = true →
        o.status = 1 ∧ afterCall o.trace = [ev] ∧
        ∃ (inp out : Str) (ft n : Int), argv[1]? = some inp ∧
          engineCalls o.trace = [(inp, out, ft, n)] ∧
          env.model_model_quantize inp out ft n ≠ 0 ∧
          ev = Event.stderr ("main: failed to quantize model from ".toList ++ [sq]
            ++ inp ++ [sq] ++ [nl])) ∧
      (o.status = 0 → ∀ ev ∈ afterCall o.trace, isStderr ev = false) := by
  rcases main_cases env argv hne with ⟨-, a0, -, hmain⟩ | ⟨-, msg, hmain⟩ |
    ⟨-, inp, out, ft, T, n, h1, hmain⟩
  · refine ⟨_, hmain, ?_, ?_, ?_⟩
    · simp only []
      rw [beforeCall_usage]
      intro ev hev
      rcases List.mem_cons.1 hev with h | h
      · subst h; rfl
      · obtain ⟨it, -, hit⟩ := List.mem_map.1 h
        subst hit; rfl
    · simp only []
      rw [afterCall_usage]
      intro ev hev
      cases hev
    · intro h
      exact absurd h (by decide : ¬ ((1 : Int) = 0))
  · refine ⟨_, hmain, ?_, ?_, ?_⟩
    · intro ev hev
      have hb : beforeCall [Event.model_init_backend, Event.stderr msg]
          = [Event.model_init_backend, Event.stderr msg] := rfl
      simp only [hb, List.mem_cons, List.mem_singleton, List.not_mem_nil, or_false] at hev
      rcases hev with h | h <;> subst h <;> rfl
    · intro ev hev
      have ha : afterCall [Event.model_init_backend, Event.stderr msg] = [] := rfl
      simp only [ha] at hev
      cases hev
    · intro h
      exact absurd h (by decide : ¬ ((1 : Int) = 0))
  · refine ⟨_, hmain, ?_, ?_, ?_⟩
    · have hall : (beforeCall (main_quantize env inp out ft T n
          [Event.model_init_backend]).trace).all (fun ev => !isStdout ev) = true := by
        rw [main_quantize_beforeCall]
        by_cases hpos : n > 0 <;> simp [hpos, isStdout]
      intro ev hev
      have := List.all_eq_true.1 hall ev hev
      simpa using this
    · intro ev hev hse
      rw [main_quantize_afterCall] at hev ⊢
      by_cases hfail : env.model_model_quantize inp out ft n ≠ 0
      · rw [if_pos hfail] at hev ⊢
        rw [List.mem_singleton] at hev
        refine ⟨?_, by rw [hev], inp, out, ft, n, h1, ?_, hfail, hev⟩
        · rw [main_quantize_status, if_neg hfail]
        · rw [main_quantize_calls]; rfl
      · rw [if_neg hfail] at hev
        simp only [List.mem_cons, List.mem_singleton, List.not_mem_nil, or_false] at hev
        rcases hev with h | h | h | h | h <;> subst h <;> cases hse
    · intro hst
      rw [main_quantize_status] at hst
      have h0 : env.model_model_quantize inp out ft n = 0 := by
        by_contra hc
        rw [if_neg hc] at hst
        exact absurd hst (by decide : ¬ ((1 : Int) = 0))
      rw [main_quantize_afterCall, if_neg (by simpa using h0)]
      intro ev hev
      simp only [List.mem_cons, List.mem_singleton, List.not_mem_nil, or_false] at hev
      rcases hev with h | h | h | h | h <;> subst h <;> rfl

theorem stream_ordering_witness :
    ∃ o : Outcome,
      main (stubEnv 1) ["quantize".toList, "in.bin".toList, "q4_0".toList] = some o ∧
      (∀ ev ∈ beforeCall o.trace, isStdout ev = false) ∧
      (o.status = 0 → ∀ ev ∈ afterCall o.trace, isStderr ev = false) := by
  obtain ⟨o, hmain, hb, -, h0⟩ := stream_ordering (stubEnv 1)
    ["quantize".toList, "in.bin".toList, "q4_0".toList] (by simp)
  exact ⟨o, hmain, hb, h0⟩

/-- C15, as stated, fails: when the engine reports a failure on
`argv = [quantize, in.bin, q4_0]`, what follows the call of
`model_model_quantize` is a write to `stderr`. -/
theorem stream_ordering_counterexample :
    (main (stubEnv 1) ["quantize".toList, "in.bin".toList, "q4_0".toList]).map
        (fun o => afterCall o.trace)
      = some [Event.stderr ("main: failed to quantize model from ".toList ++ [sq]
          ++ "in.bin".toList ++ [sq] ++ [nl])] ∧
    isStderr (Event.stderr ("main: failed to quantize model from ".toList ++ [sq]
          ++ "in.bin".toList ++ [sq] ++ [nl])) = true :=
  ⟨rfl, rfl⟩

theorem filter_isInit_usage (a : Str) (m : List (Str × Int)) (f : Str × Int → Str) :
    (Event.stderr a :: m.map (fun it => Event.stderr (f it))).filter isInit = [] := by
  rw [List.filter_eq_nil_iff]
  intro ev hev
  rcases List.mem_cons.1 hev with h | h
  · subst h; simp [isInit]
  · obtain ⟨it, -, hit⟩ := List.mem_map.1 h
    subst hit; simp [isInit]

theorem main_quantize_filter_isInit (env : Env) (inp out : Str) (ft : Int) (T : Str) (n : Int) :
    (main_quantize env inp out ft T n [Event.model_init_backend]).trace.filter isInit
      = [Event.model_init_backend] := by
  rw [main_quantize_trace]
  by_cases h : env.model_model_quantize inp out ft n = 0 <;> by_cases hn : n > 0 <;>
    simp [h, hn, isInit, List.filter]

theorem main_quantize_head (env : Env) (inp out : Str) (ft : Int) (T : Str) (n : Int) :
    (main_quantize env inp out ft T n [Event.model_init_backend]).trace.head?
      = some Event.model_init_backend := by
  rw [main_quantize_trace]
  rfl

/-- C16, as amended. `model_init_backend` is called at most once in a run:
never when `argv` has fewer than 3 elements, and exactly once, as the very
first effect and before the remaining arguments are parsed, when `argv` has
at least 3 elements (so also in a run that ends with a missing type, an
invalid type or an invalid thread count); a run that reaches the call of
`model_model_quantize` has called `model_init_backend` exactly once before
it. -/
theorem init_once (env : Env) (argv : List Str) (hne : argv ≠ []) :
    ∃ o : Outcome, main env argv = some o ∧
      (o.trace.filter isInit).length ≤ 1 ∧
      (argv.length < 3 → o.trace.filter isInit = []) ∧
      (3 ≤ argv.length → o.trace.head? = some Event.model_init_backend ∧
        o.trace.filter isInit = [Event.model_init_backend]) ∧
      (engineCalls o.trace ≠ [] →
        (beforeCall o.trace).filter isInit = [Event.model_init_backend]) := by
  rcases main_cases env argv hne with ⟨hlen, a0, -, hmain⟩ | ⟨hlen, msg, hmain⟩ |
    ⟨hlen, inp, out, ft, T, n, -, hmain⟩
  · refine ⟨_, hmain, ?_, ?_, ?_, ?_⟩
    · simp only []
      rw [filter_isInit_usage]
      exact Nat.zero_le _
    · intro _
      exact filter_isInit_usage _ _ _
    · intro h3; omega
    · intro hc
      exact absurd (engineCalls_usage _ _ _) hc
  · refine ⟨_, hmain, ?_, ?_, ?_, ?_⟩
    · exact Nat.le_refl _
    · intro h3; omega
    · intro _; exact ⟨rfl, rfl⟩
    · intro hc
      exact absurd rfl hc
  · refine ⟨_, hmain, ?_, ?_, ?_, ?_⟩
    · rw [main_quantize_filter_isInit]
      exact Nat.le_refl _
    · intro h3; omega
    · intro _
      exact ⟨main_quantize_head env inp out ft T n, main_quantize_filter_isInit env inp out ft T n⟩
    · intro _
      rw [main_quantize_beforeCall]
      by_cases hn : n > 0 <;> simp [hn, isInit, List.filter]

theorem init_once_witness :
    ∃ o : Outcome,
      main (stubEnv 0) ["quantize".toList, "in.bin".toList, "out.bin".toList, "nope".toList]
        = some o ∧
      o.trace.head? = some Event.model_init_backend ∧
      o.trace.filter isInit = [Event.model_init_backend] := by
  obtain ⟨o, hmain, -, -, h3, -⟩ := init_once (stubEnv 0)
    ["quantize".toList, "in.bin".toList, "out.bin".toList, "nope".toList] (by simp)
  exact ⟨o, hmain, h3 (by decide)⟩

/-- C16, as stated, fails: the runs on `[quantize, in.bin, out.bin]`
(missing type), `[quantize, in.bin, out.bin, nope]` (invalid type) and
`[quantize, in.bin, q4_0, x8]` (invalid thread count) end in a parser error
and have called `model_init_backend` first. -/
theorem init_once_counterexample :
    main (stubEnv 0) ["quantize".toList, "in.bin".toList, "out.bin".toList]
      = some { trace := [Event.model_init_backend,
                         Event.stderr ("main: missing ftype".toList ++ [nl])],
               status := 1 } ∧
    main (stubEnv 0) ["quantize".toList, "in.bin".toList, "out.bin".toList, "nope".toList]
      = some { trace := [Event.model_init_backend,
                         Event.stderr ("main: invalid ftype ".toList ++ [sq] ++ "nope".toList
                           ++ [sq] ++ [nl])],
               status := 1 } ∧
    main (stubEnv 0) ["quantize".toList, "in.bin".toList, "q4_0".toList, "x8".toList]
      = some { trace := [Event.model_init_backend,
                         Event.stderr ("main: invalid nthread ".toList ++ [sq] ++ "x8".toList
                           ++ [sq] ++ " (stoi)".toList ++ [nl])],
               status := 1 } :=
  ⟨rfl, rfl, rfl⟩

/-! ## The usage listing -/

/-- C17. On every `argv` with fewer than 3 elements that holds the program
name, `main` writes to `stderr` the usage header and then one line
`  type = "<name>" or <id>` for each of the nine entries of the table, in
the order q4_0, q4_1, q4_j_b1024, q4_j_b128, q4_j_b32, q4_j_bf16_b32, q5_0,
q5_1, q8_0, each name with its own identifier; it does nothing else and
returns 1.  The nine names are pairwise distinct and in strictly ascending
lexicographic order. -/
theorem usage_listing (env : Env) (argv : List Str) (hne : argv ≠ []) (hlen : argv.length < 3) :
    (∃ argv0, argv[0]? = some argv0 ∧
      main env argv = some
        { trace :=
            Event.stderr ("usage: ".toList ++ argv0
              ++ " model-f32.bin [model-quant.bin] type [nthreads]".toList ++ [nl])
            :: [ ("q4_0".toList, env.ids.MODEL_FTYPE_MOSTLY_Q4_0),
                 ("q4_1".toList, env.ids.MODEL_FTYPE_MOSTLY_Q4_1),
                 ("q4_j_b1024".toList, env.ids.MODEL_FTYPE_MOSTLY_Q4_JBLAS_B1024),
                 ("q4_j_b128".toList, env.ids.MODEL_FTYPE_MOSTLY_Q4_JBLAS_B128),
                 ("q4_j_b32".toList, env.ids.MODEL_FTYPE_MOSTLY_Q4_JBLAS_B32),
                 ("q4_j_bf16_b32".toList, env.ids.MODEL_FTYPE_MOSTLY_Q4_JBLAS_BF16_B32),
                 ("q5_0".toList, env.ids.MODEL_FTYPE_MOSTLY_Q5_0),
                 ("q5_1".toList, env.ids.MODEL_FTYPE_MOSTLY_Q5_1),
                 ("q8_0".toList, env.ids.MODEL_FTYPE_MOSTLY_Q8_0) ].map (fun it =>
                Event.stderr ("  type = ".toList ++ [dq] ++ it.1 ++ [dq] ++ " or ".toList
                  ++ fmt_d it.2 ++ [nl])),
          status := 1 }) ∧
    (NE_FTYPE_MAP env.ids).map Prod.fst =
      ["q4_0".toList, "q4_1".toList, "q4_j_b1024".toList, "q4_j_b128".toList,
       "q4_j_b32".toList, "q4_j_bf16_b32".toList, "q5_0".toList, "q5_1".toList,
       "q8_0".toList] ∧
    ((NE_FTYPE_MAP env.ids).map Prod.fst).Pairwise (fun a b => strLess a b = true) := by
  obtain ⟨a0, h0, hmain⟩ := main_lt3 env argv hlen hne
  refine ⟨⟨a0, h0, ?_⟩, ?_, ?_⟩
  · rw [hmain, NE_FTYPE_MAP_eq]
  · rw [NE_FTYPE_MAP_eq]
    rfl
  · rw [NE_FTYPE_MAP_eq]
    simp only [List.map_cons, List.map_nil]
    decide

theorem usage_listing_witness :
    ∃ argv0, ["quantize".toList, "in.bin".toList][0]? = some argv0 ∧
      main (stubEnv 0) ["quantize".toList, "in.bin".toList] = some
        { trace :=
            Event.stderr ("usage: ".toList ++ argv0
              ++ " model-f32.bin [model-quant.bin] type [nthreads]".toList ++ [nl])
            :: [ ("q4_0".toList, (2 : Int)), ("q4_1".toList, 3), ("q4_j_b1024".toList, 12),
                 ("q4_j_b128".toList, 11), ("q4_j_b32".toList, 10),
                 ("q4_j_bf16_b32".toList, 13), ("q5_0".toList, 8), ("q5_1".toList, 9),
                 ("q8_0".toList, 7) ].map (fun it =>
                Event.stderr ("  type = ".toList ++ [dq] ++ it.1 ++ [dq] ++ " or ".toList
                  ++ fmt_d it.2 ++ [nl])),
          status := 1 } :=
  (usage_listing (stubEnv 0) ["quantize".toList, "in.bin".toList] (by simp) (by decide)).1

/-! ## Reads of `argv` -/

/-- C18. On every `argv` that holds at least the program name, no read of
`argv` by `main` is out of bounds: the run has an outcome.  (With an empty
`argv` the read of `argv[0]` for the usage message is out of bounds.) -/
theorem argv_in_bounds (env : Env) (argv : List Str) (hne : argv ≠ []) :
    (∃ o : Outcome, main env argv = some o) ∧ main env [] = none := by
  refine ⟨?_, rfl⟩
  rcases main_cases env argv hne with ⟨-, a0, -, hmain⟩ | ⟨-, msg, hmain⟩ |
    ⟨-, inp, out, ft, T, n, -, hmain⟩
  · exact ⟨_, hmain⟩
  · exact ⟨_, hmain⟩
  · exact ⟨_, hmain⟩

theorem argv_in_bounds_witness :
    ∃ o : Outcome,
      main (stubEnv 0) ["quantize".toList, "in.bin".toList, "out.bin".toList, "nope".toList]
        = some o :=
  (argv_in_bounds (stubEnv 0)
    ["quantize".toList, "in.bin".toList, "out.bin".toList, "nope".toList] (by simp)).1

/-! ## The directory of a derived output path -/

theorem find_last_of_eq_none (s : Str) (c : Char) (h : c ∉ s) : find_last_of s c = none := by
  induction s with
  | nil => rfl
  | cons x xs ih =>
    have hx : x ≠ c := fun e => h (e ▸ List.mem_cons_self _ _)
    have hxs : c ∉ xs := fun e => h (List.mem_cons_of_mem _ e)
    unfold find_last_of
    rw [ih hxs]
    simp [hx]

theorem find_last_of_append (pre tl : Str) (c : Char) (h : c ∉ tl) :
    find_last_of (pre ++ c :: tl) c = some pre.length := by
  induction pre with
  | nil =>
    simp only [List.nil_append, List.length_nil]
    unfold find_last_of
    rw [find_last_of_eq_none tl c h]
    simp
  | cons x xs ih =>
    simp only [List.cons_append, List.length_cons]
    unfold find_last_of
    rw [ih]

theorem fpath_append (pre tl : Str) (h : '/' ∉ tl) : fpath (pre ++ '/' :: tl) = pre ++ ['/'] := by
  unfold fpath
  rw [find_last_of_append pre tl '/' h]
  simp only [substr, List.drop_zero]
  have : pre ++ '/' :: tl = (pre ++ ['/']) ++ tl := by simp
  rw [this]
  have hlen : pre.length + 1 = (pre ++ ['/']).length := by simp
  rw [hlen, List.take_left]

theorem fpath_of_not_mem (s : Str) (h : '/' ∉ s) : fpath s = [] := by
  unfold fpath
  rw [find_last_of_eq_none s '/' h]

theorem fpath_fpath_append (s X : Str) (h : '/' ∉ X) : fpath (fpath s ++ X) = fpath s := by
  rcases fpath_cases s with ⟨h0, -⟩ | ⟨pre, tl, -, hf, -⟩
  · rw [h0, List.nil_append]
    exact fpath_of_not_mem X h
  · rw [hf]
    have : pre ++ ['/'] ++ X = pre ++ '/' :: X := by simp
    rw [this]
    exact fpath_append pre X h

theorem name_no_slash {ids : FtypeIds} {T : Str} {ft : Int} (h : (T, ft) ∈ NE_FTYPE_MAP ids) :
    '/' ∉ T := by
  rcases mem_NE_FTYPE_MAP h with h | h | h | h | h | h | h | h | h <;>
    injection h with h1 _ <;> subst h1 <;> decide

/-- C19. No canonical name contains `/`; hence for every input path and
every canonical name `T` the derived output path
`fpath ++ "ne-model-" ++ T ++ ".bin"` has the same longest prefix ending in
`/` as the input path (empty when the input has no `/`), and deriving an
output path from it with the same `T` gives it back.  In a run, the output
path passed to the engine for the input `inp` is passed again unchanged
when the run is made on that output path. -/
theorem derived_output_same_directory (env : Env) (argv0 inp T : Str) (ft : Int)
    (hT : (T, ft) ∈ NE_FTYPE_MAP env.ids) :
    '/' ∉ T ∧
    fpath (fpath inp ++ ("ne-model-".toList ++ T ++ ".bin".toList)) = fpath inp ∧
    IsDirPrefix (fpath inp) (fpath inp ++ ("ne-model-".toList ++ T ++ ".bin".toList)) ∧
    ('/' ∉ inp → fpath (fpath inp ++ ("ne-model-".toList ++ T ++ ".bin".toList)) = []) ∧
    fpath (fpath inp ++ ("ne-model-".toList ++ T ++ ".bin".toList))
        ++ ("ne-model-".toList ++ T ++ ".bin".toList)
      = fpath inp ++ ("ne-model-".toList ++ T ++ ".bin".toList) ∧
    (∃ o o' : Outcome,
      main env [argv0, inp, T] = some o ∧
      engineCalls o.trace
        = [(inp, fpath inp ++ "ne-model-".toList ++ T ++ ".bin".toList, ft, 0)] ∧
      main env [argv0, fpath inp ++ "ne-model-".toList ++ T ++ ".bin".toList, T] = some o' ∧
      engineCalls o'.trace
        = [(fpath inp ++ "ne-model-".toList ++ T ++ ".bin".toList,
            fpath inp ++ "ne-model-".toList ++ T ++ ".bin".toList, ft, 0)]) := by
  have hno : '/' ∉ T := name_no_slash hT
  have hX : '/' ∉ "ne-model-".toList ++ T ++ ".bin".toList := by
    intro h
    rcases List.mem_append.1 h with h | h
    · rcases List.mem_append.1 h with h | h
      · revert h; decide
      · exact hno h
    · revert h; decide
  have hf := fpath_fpath_append inp _ hX
  have hres : try_parse_ftype env.ids T = some (ft, T) :=
    try_parse_ftype_of_mapFind (mapFind_of_mem hT)
  refine ⟨hno, hf, ?_, ?_, ?_, ?_⟩
  · have := fpath_isDirPrefix (fpath inp ++ ("ne-model-".toList ++ T ++ ".bin".toList))
    rw [hf] at this
    exact this
  · intro hn
    rw [hf]
    exact fpath_of_not_mem inp hn
  · rw [hf]
  · refine ⟨main_quantize env inp (fpath inp ++ "ne-model-".toList ++ T ++ ".bin".toList)
        ft T 0 [Event.model_init_backend],
      main_quantize env (fpath inp ++ "ne-model-".toList ++ T ++ ".bin".toList)
        (fpath inp ++ "ne-model-".toList ++ T ++ ".bin".toList)
        ft T 0 [Event.model_init_backend], ?_, ?_, ?_, ?_⟩
    · rw [main_derived env _ inp T ft T rfl rfl hres]
      exact main_nthreads_none env _ 3 _ _ _ _ _ rfl
    · rw [main_quantize_calls]; rfl
    · rw [main_derived env _ (fpath inp ++ "ne-model-".toList ++ T ++ ".bin".toList) T ft T
        rfl rfl hres]
      have hf' : fpath (fpath inp ++ "ne-model-".toList ++ T ++ ".bin".toList) = fpath inp := by
        have e : fpath inp ++ "ne-model-".toList ++ T ++ ".bin".toList
            = fpath inp ++ ("ne-model-".toList ++ T ++ ".bin".toList) := by
          simp only [List.append_assoc]
        rw [e]
        exact hf
      rw [hf']
      exact main_nthreads_none env _ 3 _ _ _ _ _ rfl
    · rw [main_quantize_calls]; rfl

theorem derived_output_same_directory_witness :
    '/' ∉ "q4_0".toList ∧
    fpath (fpath "models/llama/ne-model.bin".toList
        ++ ("ne-model-".toList ++ "q4_0".toList ++ ".bin".toList))
      = fpath "models/llama/ne-model.bin".toList ∧
    fpath "models/llama/ne-model-q4_0.bin".toList = "models/llama/".toList :=
  ⟨(derived_output_same_directory (stubEnv 0) "quantize".toList
      "models/llama/ne-model.bin".toList "q4_0".toList 2 (by decide)).1,
   (derived_output_same_directory (stubEnv 0) "quantize".toList
      "models/llama/ne-model.bin".toList "q4_0".toList 2 (by decide)).2.1,
   rfl⟩

/-! ## Arguments after the thread count -/

theorem main_nthreads_append (env : Env) (argv extra : List Str) (idx : Nat) (inp out : Str)
    (ft : Int) (T : Str) (tr : List Event) (tok : Str) (htok : argv[idx]? = some tok) :
    main_nthreads env (argv ++ extra) idx inp out ft T tr
      = main_nthreads env argv idx inp out ft T tr := by
  have hlen := length_of_getElem? htok
  have htok' : (argv ++ extra)[idx]? = some tok := by
    rw [List.getElem?_append_left hlen]
    exact htok
  cases hs : stoi tok with
  | ok n =>
    rw [main_nthreads_ok env _ idx inp out ft T tr tok n htok' hs,
      main_nthreads_ok env _ idx inp out ft T tr tok n htok hs]
  | error e =>
    rw [main_nthreads_error env _ idx inp out ft T tr tok e htok' hs,
      main_nthreads_error env _ idx inp out ft T tr tok e htok hs]

/-- C20. When `argv` reaches past the thread-count position (index 3 when
`argv[2]` resolves as a type, index 4 otherwise), appending any further
arguments changes nothing: the run on the extended `argv` has the same
effects, in the same order, and the same exit status as the run on `argv`.
When `argv[2]` resolves as a type, `argv[3]` is read by `std::stoi` only:
a token it rejects ends the run with `invalid nthread`, even a canonical
name, and every call of the engine is made with the type of `argv[2]`. -/
theorem trailing_arguments_ignored (env : Env) (argv extra : List Str) (a2 : Str)
    (h2 : argv[2]? = some a2)
    (hlen : (if (try_parse_ftype env.ids a2).isSome = true then 3 else 4) < argv.length) :
    main env (argv ++ extra) = main env argv ∧
    (∀ (ft : Int) (T : Str), try_parse_ftype env.ids a2 = some (ft, T) →
      ∀ tok : Str, argv[3]? = some tok →
        (∀ e : StoiError, stoi tok = .error e →
          main env (argv ++ extra) = some
            { trace := [Event.model_init_backend,
                        Event.stderr ("main: invalid nthread ".toList ++ [sq] ++ tok ++ [sq]
                          ++ " (".toList ++ env.what e ++ ")".toList ++ [nl])],
              status := 1 }) ∧
        (∀ o : Outcome, main env (argv ++ extra) = some o →
          ∀ c ∈ engineCalls o.trace, c.2.2.1 = ft)) := by
  have hl2 := length_of_getElem? h2
  obtain ⟨inp, h1⟩ := getElem?_one_of_two h2
  have h1' : (argv ++ extra)[1]? = some inp := by
    rw [List.getElem?_append_left (by omega)]; exact h1
  have h2' : (argv ++ extra)[2]? = some a2 := by
    rw [List.getElem?_append_left hl2]; exact h2
  have heq : main env (argv ++ extra) = main env argv := by
    cases ha : try_parse_ftype env.ids a2 with
    | some r =>
      obtain ⟨ft, T⟩ := r
      rw [ha] at hlen
      have hl3 : 3 < argv.length := by simpa using hlen
      have h3 : argv[3]? = some argv[3] := List.getElem?_eq_getElem hl3
      rw [main_derived env _ inp a2 ft T h1' h2' ha, main_derived env _ inp a2 ft T h1 h2 ha]
      exact main_nthreads_append env argv extra 3 inp _ ft T _ _ h3
    | none =>
      rw [ha] at hlen
      have hl4 : 4 < argv.length := by simpa using hlen
      have h3 : argv[3]? = some argv[3] := List.getElem?_eq_getElem (by omega)
      have h3' : (argv ++ extra)[3]? = some argv[3] := by
        rw [List.getElem?_append_left (by omega)]; exact h3
      have h4 : argv[4]? = some argv[4] := List.getElem?_eq_getElem hl4
      cases hb : try_parse_ftype env.ids argv[3] with
      | none =>
        rw [main_invalid env _ a2 _ h2' ha h3' hb, main_invalid env _ a2 _ h2 ha h3 hb]
      | some r =>
        obtain ⟨ft, T⟩ := r
        rw [main_explicit env _ inp a2 _ ft T h1' h2' ha h3' hb,
          main_explicit env _ inp a2 _ ft T h1 h2 ha h3 hb]
        exact main_nthreads_append env argv extra 4 inp a2 ft T _ _ h4
  refine ⟨heq, ?_⟩
  intro ft T ha tok h3
  have hres : TypeResolved env.ids argv ft T 3 := Or.inl ⟨a2, h2, ha, rfl⟩
  constructor
  · intro e hs
    rw [heq]
    exact nthread_error_run env argv ft T 3 tok e hres h3 hs
  · intro o ho c hc
    rw [heq, main_derived env _ inp a2 ft T h1 h2 ha] at ho
    cases hs : stoi tok with
    | ok n =>
      rw [main_nthreads_ok env _ 3 inp _ ft T _ tok n h3 hs] at ho
      injection ho with ho
      rw [← ho, main_quantize_calls] at hc
      have hc' : c = (inp, fpath inp ++ "ne-model-".toList ++ T ++ ".bin".toList, ft, n) := by
        simpa [engineCalls] using hc
      rw [hc']
    | error e =>
      rw [main_nthreads_error env _ 3 inp _ ft T _ tok e h3 hs] at ho
      injection ho with ho
      rw [← ho] at hc
      simp [engineCalls] at hc

theorem trailing_arguments_ignored_witness :
    main (stubEnv 0)
        (["quantize".toList, "in.bin".toList, "q4_0".toList, "4".toList]
          ++ ["q5_1".toList, "more".toList])
      = main (stubEnv 0) ["quantize".toList, "in.bin".toList, "q4_0".toList, "4".toList] ∧
    main (stubEnv 0)
        (["quantize".toList, "in.bin".toList, "q4_0".toList, "q4_1".toList] ++ ["8".toList])
      = some
          { trace := [Event.model_init_backend,
                      Event.stderr ("main: invalid nthread ".toList ++ [sq] ++ "q4_1".toList
                        ++ [sq] ++ " (".toList ++ (stubEnv 0).what StoiError.invalid_argument
                        ++ ")".toList ++ [nl])],
            status := 1 } :=
  ⟨(trailing_arguments_ignored (stubEnv 0)
      ["quantize".toList, "in.bin".toList, "q4_0".toList, "4".toList]
      ["q5_1".toList, "more".toList] "q4_0".toList rfl (by decide)).1,
   ((trailing_arguments_ignored (stubEnv 0)
      ["quantize".toList, "in.bin".toList, "q4_0".toList, "q4_1".toList]
      ["8".toList] "q4_0".toList rfl (by decide)).2 2 "q4_0".toList rfl "q4_1".toList rfl).1
      StoiError.invalid_argument rfl⟩

end QuantLlama
